import Mathlib

/-!
# threeSD: `core/ncch/certificate.cpp`

A shallow embedding of the certificate codec (`Certificate::Load`, `Certificate::Save`) and of
the certificate registry (`Certs::Load`, `Certs::IsLoaded`, `Certs::Get`).

Conventions of the embedding.

* A byte is a `Fin 256`; a `std::vector<u8>` and the object representation of a struct are
  lists of bytes.  `std::memcpy` copies a range of such a list.
* `std::size_t` is 64 bits wide: every `size_t` expression of the source is reduced modulo
  `2 ^ 64` at the place where the source computes it.
* A `memcpy` whose source range leaves the vector it reads from has no defined behaviour in
  C++.  The embedding records this outcome explicitly (`ret = none`) instead of inventing
  bytes, and it keeps the list of the source ranges that were read.
* Declarations that `certificate.cpp` uses but that live in headers outside the translated
  file (`certificate.h`, `cia_common.h`, `common/string_util.h`) are the fields of `Decls`.
-/

namespace Core

/-- One byte (`u8`). -/
abbrev u8 := Fin 256

/-- Number of values of `std::size_t`. -/
def SIZE_T : Nat := 2 ^ 64

/-- Declarations used by `certificate.cpp` whose definitions are in headers that are not part of
the translated file.  Everything below is parametric in them. -/
structure Decls where
  /-- The function `GetSignatureSize(u32) -> u32` of `cia_common.h`; `0` means an unknown
  signature type. -/
  GetSignatureSize : Nat → Nat
  /-- The `u32` value of the member `signature_type`, given the four bytes stored in it. -/
  signature_type_value : List u8 → Nat
  /-- The value of `sizeof(Certificate::Body)`. -/
  sizeofBody : Nat
  /-- The `u32` value of `body.key_type`, given the object representation of `body`. -/
  key_type : List u8 → Nat
  /-- The string `Common::StringFromFixedZeroTerminatedBuffer(body.name.data(),
  body.name.size())`, given the object representation of `body`. -/
  name : List u8 → List u8
  /-- The constant `PublicKeyType::RSA_4096`. -/
  RSA_4096 : Nat
  /-- The constant `PublicKeyType::RSA_2048`. -/
  RSA_2048 : Nat
  /-- The constant `PublicKeyType::ECC`. -/
  ECC : Nat
  /-- The value of `sizeof(CertsDBHeader)`. -/
  sizeofHeader : Nat
  /-- The `u32` value of `header.magic`, given the object representation of the header. -/
  header_magic : List u8 → Nat
  /-- The `u32` value of `header.size`, given the object representation of the header. -/
  header_size : List u8 → Nat
  /-- The constant `MakeMagic('C', 'E', 'R', 'T')`. -/
  magicCERT : Nat
  /-- The list `CIACertNames`, the names of the certificates required for CIA building. -/
  CIACertNames : List (List u8)

/-- Size facts that hold of the absent declarations because of their C++ types:
`GetSignatureSize` returns a `u32`, `header.size` is a `u32`, and the two structs are far
smaller than the address space. -/
structure Decls.Sane (D : Decls) : Prop where
  sig_lt : ∀ t, D.GetSignatureSize t < 2 ^ 32
  size_lt : ∀ h, D.header_size h < 2 ^ 32
  body_lt : D.sizeofBody < 2 ^ 32
  header_lt : D.sizeofHeader < 2 ^ 32

/-- The data members of `class Certificate`.  `signature_type` and `body` are kept as their
object representations, which is what `memcpy` and `WriteBytes` access. -/
structure Certificate where
  signature_type : List u8
  signature : List u8
  body : List u8
  public_key : List u8
deriving DecidableEq, Repr

/-- The function `GetPublicKeySize`: sizes include padding (0x34 for RSA, 0x3C for ECC); `0` for
a bad public key type. -/
def GetPublicKeySize (D : Decls) (public_key_type : Nat) : Nat :=
  if public_key_type = D.RSA_4096 then 0x238
  else if public_key_type = D.RSA_2048 then 0x138
  else if public_key_type = D.ECC then 0x78
  else 0

/-- Modelled from the spec: `Common::AlignUp` of `common/alignment.h` (not part of the translated
file), the `align_up` of the specification: `value` rounded up to the next multiple of `size`,
computed in `std::size_t`. -/
def AlignUp (value size : Nat) : Nat :=
  (value + (size - value % size) % size) % SIZE_T

/-- The bytes `[start, start + len)` of a vector. -/
def slice (v : List u8) (start len : Nat) : List u8 :=
  (v.drop start).take len

/-- Whether the source range `[start, start + len)` of a `memcpy` lies inside `v`. -/
def inBounds (v : List u8) (start len : Nat) : Bool :=
  decide (start + len ≤ v.length)

/-- Outcome of `Certificate::Load`. -/
structure LoadResult where
  /-- The returned `std::size_t`; `none` when a `memcpy` was asked to read a source range that
  leaves `file_data`, after which the C++ program has no defined behaviour. -/
  ret : Option Nat
  /-- The members of `*this` after the call. -/
  self : Certificate
  /-- The source ranges `(first index, byte count)` of the `memcpy` calls, in program order. -/
  reads : List (Nat × Nat)
deriving DecidableEq, Repr

/-- The function `std::size_t Certificate::Load(std::vector<u8> file_data, std::size_t offset)`,
run on the object `self`. -/
def Certificate.Load (D : Decls) (self : Certificate) (file_data : List u8) (offset : Nat) :
    LoadResult :=
  let total_size := (file_data.length + SIZE_T - offset) % SIZE_T
  if total_size < 4 then
    { ret := some 0, self := self, reads := [] }
  else
    -- std::memcpy(&signature_type, &file_data[offset], sizeof(u32));
    let r1 := [(offset, 4)]
    if !inBounds file_data offset 4 then
      { ret := none, self := self, reads := r1 }
    else
      let self1 := { self with signature_type := slice file_data offset 4 }
      let signature_size := D.GetSignatureSize (D.signature_type_value self1.signature_type)
      if signature_size = 0 then
        { ret := some 0, self := self1, reads := r1 }
      else
        let body_start := AlignUp ((signature_size + 4) % SIZE_T) 0x40
        let body_end := (body_start + D.sizeofBody) % SIZE_T
        if total_size < body_end then
          { ret := some 0, self := self1, reads := r1 }
        else
          -- signature.resize(signature_size); memcpy(signature.data(), &file_data[offset + 4], ..)
          let sig_at := (offset + 4) % SIZE_T
          let r2 := r1 ++ [(sig_at, signature_size)]
          if !inBounds file_data sig_at signature_size then
            { ret := none, self := self1, reads := r2 }
          else
            let self2 := { self1 with signature := slice file_data sig_at signature_size }
            -- std::memcpy(&body, &file_data[offset + body_start], sizeof(Body));
            let body_at := (offset + body_start) % SIZE_T
            let r3 := r2 ++ [(body_at, D.sizeofBody)]
            if !inBounds file_data body_at D.sizeofBody then
              { ret := none, self := self2, reads := r3 }
            else
              let self3 := { self2 with body := slice file_data body_at D.sizeofBody }
              let public_key_size := GetPublicKeySize D (D.key_type self3.body)
              if public_key_size = 0 then
                { ret := some 0, self := self3, reads := r3 }
              else
                -- public_key.resize(..);
                -- memcpy(public_key.data(), &file_data[offset + body_end], public_key.size())
                let key_at := (offset + body_end) % SIZE_T
                let r4 := r3 ++ [(key_at, public_key_size)]
                if !inBounds file_data key_at public_key_size then
                  { ret := none, self := self3, reads := r4 }
                else
                  let self4 := { self3 with public_key := slice file_data key_at public_key_size }
                  { ret := some ((body_end + self4.public_key.length) % SIZE_T),
                    self := self4, reads := r4 }


/-- The operations of `FileUtil::IOFile` that `Certificate::Save` calls, over a file state `σ`. -/
structure IOFile (σ : Type) where
  /-- The call `WriteBytes(data, length)`: the number of bytes written and the file afterwards. -/
  WriteBytes : σ → List u8 → Nat × σ
  /-- The call `Seek(off, SEEK_CUR)`: success flag and the file afterwards. -/
  Seek : σ → Nat → Bool × σ

/-- The function `bool Certificate::Save(FileUtil::IOFile& file) const`. -/
def Certificate.Save {σ : Type} (D : Decls) (F : IOFile σ) (self : Certificate) (file : σ) :
    Bool × σ :=
  -- signature
  let w1 := F.WriteBytes file self.signature_type
  if w1.1 ≠ 4 then (false, w1.2)
  else
    let w2 := F.WriteBytes w1.2 self.signature
    if w2.1 ≠ self.signature.length then (false, w2.2)
    else
      -- body
      let body_start := AlignUp ((self.signature.length + 4) % SIZE_T) 0x40
      let sk := F.Seek w2.2 ((body_start + 2 * SIZE_T - self.signature.length - 4) % SIZE_T)
      if !sk.1 then (false, sk.2)
      else
        let w3 := F.WriteBytes sk.2 self.body
        if w3.1 ≠ D.sizeofBody then (false, w3.2)
        else
          -- public key
          let w4 := F.WriteBytes w3.2 self.public_key
          if w4.1 ≠ self.public_key.length then (false, w4.2)
          else (true, w4.2)

/-- An in-memory file: its bytes and the position of the next write. -/
structure MemFile where
  contents : List u8
  pos : Nat
deriving DecidableEq, Repr

/-- Modelled from the spec: the byte-sink collaborator (`FileUtil::IOFile`, not part of the
translated file) in the case where it accepts every write: the bytes are stored at the current
position, which advances; bytes between the old end of the file and the position read as
zero. -/
def MemFile.WriteBytes (f : MemFile) (data : List u8) : Nat × MemFile :=
  if data = [] then (0, f)
  else
    let old := f.contents ++ List.replicate (f.pos - f.contents.length) 0
    (data.length,
      { contents := old.take f.pos ++ data ++ old.drop (f.pos + data.length),
        pos := f.pos + data.length })

/-- Modelled from the spec: the byte-sink collaborator in the case where every relative seek
succeeds. -/
def MemFile.Seek (f : MemFile) (off : Nat) : Bool × MemFile :=
  (true, { f with pos := f.pos + off })

/-- The in-memory file as an `IOFile`. -/
def memFile : IOFile MemFile where
  WriteBytes := MemFile.WriteBytes
  Seek := MemFile.Seek

/-- A default-constructed `Certificate` (`Certificate cert;`): both vectors are empty.  The two
scalar members are not initialised by the constructor; they are taken as zero bytes. -/
def Certificate.fresh (D : Decls) : Certificate where
  signature_type := List.replicate 4 0
  signature := []
  body := List.replicate D.sizeofBody 0
  public_key := []

namespace Certs

/-- The contents of `std::unordered_map<std::string, Certificate>` as a list of entries with
pairwise different keys. -/
abbrev Registry := List (List u8 × Certificate)

/-- The two statics of the namespace, `g_certs` and `g_is_loaded`. -/
structure State where
  g_certs : Registry
  g_is_loaded : Bool
deriving DecidableEq, Repr

/-- The state at program start: `g_certs` empty, `g_is_loaded = false`. -/
def State.init : State := { g_certs := [], g_is_loaded := false }

/-- The call `g_certs.count(name)`. -/
def count (g : Registry) (name : List u8) : Nat :=
  if g.any (fun e => e.1 = name) then 1 else 0

/-- The call `g_certs.emplace(name, cert)`: inserts only when no entry with that key exists. -/
def emplace (g : Registry) (name : List u8) (cert : Certificate) : Registry :=
  if g.any (fun e => e.1 = name) then g else g ++ [(name, cert)]

/-- The call `g_certs.at(name)`: `none` stands for the `std::out_of_range` exception. -/
def lookup (g : Registry) (name : List u8) : Option Certificate :=
  (g.find? (fun e => e.1 = name)).map (fun e => e.2)

/-- How the record loop of `Certs::Load` ended. -/
inductive LoopExit where
  /-- The condition `pos < total_size` became false. -/
  | completed
  /-- A call of `cert.Load` returned 0 and `Certs::Load` returned false. -/
  | failed
  /-- A call of `cert.Load` read outside `data[0]`. -/
  | undefined
  /-- The iteration budget given to the embedding ran out before the loop ended. -/
  | unfinished
deriving DecidableEq, Repr

/-- Result of the record loop. -/
structure LoopResult where
  exit : LoopExit
  g_certs : Registry
  /-- The positions at which `cert.Load` was called, in order. -/
  calls : List Nat
deriving DecidableEq, Repr

/-- The loop `while (pos < total_size) { ... }` of `Certs::Load`, run for at most `fuel`
iterations. -/
def loop (D : Decls) (data0 : List u8) (total_size : Nat) :
    Nat → Nat → Registry → List Nat → LoopResult
  | 0, pos, g, calls =>
    if pos < total_size then { exit := .unfinished, g_certs := g, calls := calls }
    else { exit := .completed, g_certs := g, calls := calls }
  | fuel + 1, pos, g, calls =>
    if pos < total_size then
      let r := Certificate.Load D (Certificate.fresh D) data0 pos
      match r.ret with
      | none => { exit := .undefined, g_certs := g, calls := calls ++ [pos] }
      | some size =>
        if size = 0 then { exit := .failed, g_certs := g, calls := calls ++ [pos] }
        else
          loop D data0 total_size fuel ((pos + size) % SIZE_T)
            (emplace g (D.name r.self.body) r.self) (calls ++ [pos])
    else { exit := .completed, g_certs := g, calls := calls }

/-- What `DataContainer` makes of the file at `path`: `IsGood()`, and the blocks that
`GetIVFCLevel4Data(data)` stores in `data` (`none` when it returns false). -/
structure DataContainer where
  IsGood : Bool
  GetIVFCLevel4Data : Option (List (List u8))
deriving DecidableEq, Repr

/-- What a call of `Certs::Load` did. -/
inductive Ret where
  /-- The call returned this value. -/
  | value (b : Bool)
  /-- The call read outside a vector (`data[0]` of an empty `data`, or a `memcpy` in
  `Certificate::Load`). -/
  | undefined
  /-- The iteration budget given to the record loop ran out. -/
  | unfinished
deriving DecidableEq, Repr

/-- Result of `Certs::Load`: what the call did, the statics afterwards, and the positions at
which a record was decoded. -/
structure LoadResult where
  ret : Ret
  state : State
  calls : List Nat
deriving DecidableEq, Repr

/-- Modelled from the spec: the macro `TRY_MEMCPY(&header, data[0], 0, sizeof(header))` (defined
outside the translated file) makes the enclosing function return false unless the block is at
least header-sized; otherwise it copies the first `sizeof(header)` bytes. -/
def TRY_MEMCPY (D : Decls) (data0 : List u8) : Option (List u8) :=
  if data0.length < D.sizeofHeader then none else some (slice data0 0 D.sizeofHeader)

/-- The function `bool Certs::Load(const std::string& path)`, as a function of the statics before
the call and of what the container layer yields for `path`. -/
def Load (D : Decls) (s : State) (container : DataContainer) : LoadResult :=
  -- g_certs.clear();
  let s0 : State := { s with g_certs := [] }
  if !container.IsGood then { ret := .value false, state := s0, calls := [] }
  else
    match container.GetIVFCLevel4Data with
    | none => { ret := .value false, state := s0, calls := [] }
    | some [] => { ret := .undefined, state := s0, calls := [] }
    | some (data0 :: _) =>
      match TRY_MEMCPY D data0 with
      | none => { ret := .value false, state := s0, calls := [] }
      | some header =>
        if D.header_magic header ≠ D.magicCERT then
          { ret := .value false, state := s0, calls := [] }
        else
          let total_size := (D.header_size header + D.sizeofHeader) % SIZE_T
          if data0.length < total_size then
            { ret := .value false, state := s0, calls := [] }
          else
            let l := loop D data0 total_size total_size D.sizeofHeader [] []
            let s1 : State := { s0 with g_certs := l.g_certs }
            match l.exit with
            | .unfinished => { ret := .unfinished, state := s1, calls := l.calls }
            | .undefined => { ret := .undefined, state := s1, calls := l.calls }
            | .failed => { ret := .value false, state := s1, calls := l.calls }
            | .completed =>
              if D.CIACertNames.all (fun cert => count l.g_certs cert ≠ 0) then
                { ret := .value true, state := { s1 with g_is_loaded := true },
                  calls := l.calls }
              else { ret := .value false, state := s1, calls := l.calls }

/-- The function `bool Certs::IsLoaded()`. -/
def IsLoaded (s : State) : Bool :=
  s.g_is_loaded

/-- The function `const Certificate& Certs::Get(const std::string& name)`; `none` stands for the
exception thrown by `g_certs.at`. -/
def Get (s : State) (name : List u8) : Option Certificate :=
  lookup s.g_certs name

end Certs

/-! ## A concrete instance of the absent declarations

The layout of 3DS certificates: big-endian type codes, a 0x88-byte body (issuer, key type, name,
expiration time) and a 16-byte database header.  It is used to evaluate the definitions on
explicit byte strings. -/

/-- Big-endian value of a byte string. -/
def be32 (b : List u8) : Nat :=
  b.foldl (fun acc x => acc * 256 + x.val) 0

/-- Little-endian value of a byte string. -/
def le32 (b : List u8) : Nat :=
  b.foldr (fun x acc => x.val + 256 * acc) 0

/-- The bytes of `buffer` before its first zero byte. -/
def untilZero (buffer : List u8) : List u8 :=
  buffer.takeWhile (fun x => x ≠ 0)

/-- Declarations in the 3DS layout, with the required-name list as a parameter. -/
def ctr (required : List (List u8)) : Decls where
  GetSignatureSize := fun t =>
    if t = 0x10000 ∨ t = 0x10003 then 0x200
    else if t = 0x10001 ∨ t = 0x10004 then 0x100
    else if t = 0x10002 ∨ t = 0x10005 then 0x3C
    else 0
  signature_type_value := be32
  sizeofBody := 0x88
  key_type := fun b => be32 (slice b 0x40 4)
  name := fun b => untilZero (slice b 0x44 0x40)
  RSA_4096 := 0
  RSA_2048 := 1
  ECC := 2
  sizeofHeader := 0x10
  header_magic := fun h => le32 (slice h 0 4)
  header_size := fun h => le32 (slice h 8 4) % 2 ^ 32
  magicCERT := 0x54524543
  CIACertNames := required

/-- A certificate with an ECC signature (type 0x10002, 0x3C bytes equal to `fill`), an ECC key
(0x78 bytes equal to `fill`) and the given name, which is padded with zero bytes to 0x40. -/
def sampleCert (name : List u8) (fill : u8) : Certificate where
  signature_type := [0, 1, 0, 2]
  signature := List.replicate 0x3C fill
  body := List.replicate 0x40 fill ++ [0, 0, 0, 2] ++ name
    ++ List.replicate (0x40 - name.length) 0 ++ [0, 0, 0, 0]
  public_key := List.replicate 0x78 fill

/-- The 0x140 bytes of the record of `sampleCert name fill`. -/
def sampleRecord (name : List u8) (fill : u8) : List u8 :=
  (sampleCert name fill).signature_type ++ (sampleCert name fill).signature
    ++ (sampleCert name fill).body ++ (sampleCert name fill).public_key

/-- A database header in the 3DS layout: magic `CERT`, four unused bytes, the little-endian
payload size (below 0x10000), four unused bytes. -/
def sampleHeader (size : Nat) : List u8 :=
  [0x43, 0x45, 0x52, 0x54, 0, 0, 0, 0,
    Fin.ofNat (size % 256), Fin.ofNat (size / 256 % 256), 0, 0, 0, 0, 0, 0]

namespace Certs

/-- The registry entry that one pass of the record loop makes of the bytes at `pos`: the name and
the certificate when `cert.Load(data[0], pos)` returns a non-zero size, nothing otherwise. -/
def recordAt (D : Decls) (data0 : List u8) (pos : Nat) : Option (List u8 × Certificate) :=
  match (Certificate.Load D (Certificate.fresh D) data0 pos).ret with
  | none => none
  | some size =>
    if size = 0 then none
    else some (D.name (Certificate.Load D (Certificate.fresh D) data0 pos).self.body,
      (Certificate.Load D (Certificate.fresh D) data0 pos).self)

/-- The entries made of the records at the given positions, in the order of the positions. -/
def recordsAt (D : Decls) (data0 : List u8) (calls : List Nat) :
    List (List u8 × Certificate) :=
  calls.filterMap (recordAt D data0)

/-- Repeated `emplace`: the entries of a list, one after the other. -/
def emplaceAll (g : Registry) (es : List (List u8 × Certificate)) : Registry :=
  es.foldl (fun g e => emplace g e.1 e.2) g

end Certs

/-- The container of a database file in the 3DS layout with the given payload. -/
def sampleDatabase (payload : List u8) : Certs.DataContainer where
  IsGood := true
  GetIVFCLevel4Data := some [sampleHeader payload.length ++ payload]

/-! ## Vocabulary for statements about whole databases and about sinks -/

/-- A certificate as `Certificate::Load` produces it: the two scalar members have the size of
their types, and the signature and the public key have the non-zero sizes that the size tables
give for the signature type and for the key type. -/
def Certificate.Valid (D : Decls) (c : Certificate) : Prop :=
  c.signature_type.length = 4 ∧ c.body.length = D.sizeofBody ∧
  D.GetSignatureSize (D.signature_type_value c.signature_type) ≠ 0 ∧
  D.GetSignatureSize (D.signature_type_value c.signature_type) = c.signature.length ∧
  GetPublicKeySize D (D.key_type c.body) ≠ 0 ∧
  GetPublicKeySize D (D.key_type c.body) = c.public_key.length

instance (D : Decls) (c : Certificate) : Decidable (c.Valid D) := by
  unfold Certificate.Valid
  infer_instance

/-- The bytes that `Certificate::Save` leaves in an empty in-memory file. -/
def Certificate.encode (D : Decls) (c : Certificate) : List u8 :=
  (Certificate.Save D memFile c { contents := [], pos := 0 }).2.contents

/-- The encodings of a list of certificates, one after the other. -/
def payload (D : Decls) : List Certificate → List u8
  | [] => []
  | c :: cs => c.encode D ++ payload D cs

/-- The registry entry of a certificate: its name and the certificate. -/
def Certs.entry (D : Decls) (c : Certificate) : List u8 × Certificate :=
  (D.name c.body, c)

/-- A request made to a sink: a write of some bytes or a relative seek. -/
inductive SinkOp where
  | write (data : List u8)
  | seek (off : Nat)
deriving DecidableEq, Repr

/-- A request made to a sink together with whether it succeeded in full: a write when the
reported number of bytes is the number of bytes given, a seek when it reported success. -/
structure SinkCall where
  op : SinkOp
  full : Bool
deriving DecidableEq, Repr

/-- A sink that behaves as `F` and keeps the list of the calls made to it. -/
def logging {σ : Type} (F : IOFile σ) : IOFile (σ × List SinkCall) where
  WriteBytes := fun f data =>
    ((F.WriteBytes f.1 data).1,
      ((F.WriteBytes f.1 data).2,
        f.2 ++ [{ op := .write data, full := decide ((F.WriteBytes f.1 data).1 = data.length) }]))
  Seek := fun f off =>
    ((F.Seek f.1 off).1,
      ((F.Seek f.1 off).2, f.2 ++ [{ op := .seek off, full := (F.Seek f.1 off).1 }]))

/-- The five requests of `Certificate::Save`, in program order: signature type, signature, seek
over the padding, body, public key. -/
def Certificate.saveSteps (c : Certificate) : List SinkOp :=
  [.write c.signature_type, .write c.signature,
    .seek ((AlignUp ((c.signature.length + 4) % SIZE_T) 0x40 + 2 * SIZE_T
      - c.signature.length - 4) % SIZE_T),
    .write c.body, .write c.public_key]

/-- An in-memory file of bounded capacity: a write that would end past `capacity` writes
nothing and reports 0 bytes. -/
def limitedFile (capacity : Nat) : IOFile MemFile where
  WriteBytes := fun f data =>
    if f.pos + data.length ≤ capacity then MemFile.WriteBytes f data else (0, f)
  Seek := MemFile.Seek

/-! ## Lemmas on the codec -/

theorem alignUp_eq (v : Nat) (hv : v < 2 ^ 33) :
    AlignUp v 0x40 = v + (64 - v % 64) % 64 := by
  unfold AlignUp SIZE_T
  omega

theorem slice_length (v : List u8) (start len : Nat) (h : start + len ≤ v.length) :
    (slice v start len).length = len := by
  simp [slice]; omega

theorem GetPublicKeySize_le (D : Decls) (t : Nat) : GetPublicKeySize D t ≤ 0x238 := by
  unfold GetPublicKeySize; split_ifs <;> omega

/-- The instance `ctr` satisfies the size facts. -/
theorem ctr_sane (required : List (List u8)) : (ctr required).Sane where
  sig_lt := by
    intro t
    simp only [ctr]
    split_ifs <;> omega
  size_lt := by
    intro h
    simp only [ctr]
    exact Nat.mod_lt _ (by norm_num)
  body_lt := by simp [ctr]
  header_lt := by simp [ctr]

/-- Normal form of `Certificate::Load` for an offset inside the buffer: the five ways the call
can end, with every `size_t` expression free of wrap-around. -/
theorem Load_inRange (D : Decls) (hD : D.Sane) (self : Certificate) (fd : List u8) (offset : Nat)
    (hlen : fd.length < 2 ^ 64) (hoff : offset ≤ fd.length) (s bs be k : Nat)
    (hs : s = D.GetSignatureSize (D.signature_type_value (slice fd offset 4)))
    (hbs : bs = AlignUp (s + 4) 0x40) (hbe : be = bs + D.sizeofBody)
    (hk : k = GetPublicKeySize D (D.key_type (slice fd (offset + bs) D.sizeofBody))) :
    Certificate.Load D self fd offset =
      if fd.length - offset < 4 then { ret := some 0, self := self, reads := [] }
      else if s = 0 ∨ fd.length - offset < be then
        { ret := some 0, self := { self with signature_type := slice fd offset 4 },
          reads := [(offset, 4)] }
      else if k = 0 then
        { ret := some 0,
          self := { self with signature_type := slice fd offset 4,
                              signature := slice fd (offset + 4) s,
                              body := slice fd (offset + bs) D.sizeofBody },
          reads := [(offset, 4), (offset + 4, s), (offset + bs, D.sizeofBody)] }
      else if fd.length - offset < be + k then
        { ret := none,
          self := { self with signature_type := slice fd offset 4,
                              signature := slice fd (offset + 4) s,
                              body := slice fd (offset + bs) D.sizeofBody },
          reads := [(offset, 4), (offset + 4, s), (offset + bs, D.sizeofBody),
            (offset + be, k)] }
      else
        { ret := some (be + k),
          self := { signature_type := slice fd offset 4, signature := slice fd (offset + 4) s,
                    body := slice fd (offset + bs) D.sizeofBody,
                    public_key := slice fd (offset + be) k },
          reads := [(offset, 4), (offset + 4, s), (offset + bs, D.sizeofBody),
            (offset + be, k)] } := by
  have hs32 : s < 2 ^ 32 := hs ▸ hD.sig_lt _
  have hb32 := hD.body_lt
  have hk32 : k ≤ 0x238 := hk ▸ GetPublicKeySize_le D _
  have hbs' : bs = (s + 4) + (64 - (s + 4) % 64) % 64 := by
    rw [hbs, alignUp_eq _ (by omega)]
  have ht : (fd.length + SIZE_T - offset) % SIZE_T = fd.length - offset := by
    unfold SIZE_T; omega
  have e1 : (s + 4) % SIZE_T = s + 4 := by unfold SIZE_T; omega
  have e2 : (bs + D.sizeofBody) % SIZE_T = be := by unfold SIZE_T; omega
  have e6 : (be + k) % SIZE_T = be + k := by unfold SIZE_T; omega
  by_cases c1 : fd.length - offset < 4
  · simp only [Certificate.Load, ht]
    simp only [c1, if_true]
  · have hb1 : offset + 4 ≤ fd.length := by omega
    have e3 : (offset + 4) % SIZE_T = offset + 4 := by unfold SIZE_T; omega
    by_cases c2 : s = 0
    · simp only [Certificate.Load, ht, ← hs, inBounds]
      simp [c1, hb1, c2]
    · by_cases c3 : fd.length - offset < be
      · simp only [Certificate.Load, ht, ← hs, e1, ← hbs, e2, inBounds]
        simp [c1, hb1, c2, c3]
      · have e4 : (offset + bs) % SIZE_T = offset + bs := by unfold SIZE_T; omega
        have e5 : (offset + be) % SIZE_T = offset + be := by unfold SIZE_T; omega
        have hb2 : offset + 4 + s ≤ fd.length := by omega
        have hb3 : offset + bs + D.sizeofBody ≤ fd.length := by omega
        by_cases c4 : k = 0
        · simp only [Certificate.Load, ht, ← hs, e1, ← hbs, e2, e3, e4, ← hk, inBounds]
          simp [c1, hb1, c2, c3, hb2, hb3, c4]
        · by_cases c5 : fd.length - offset < be + k
          · have hb4 : ¬ offset + be + k ≤ fd.length := by omega
            simp only [Certificate.Load, ht, ← hs, e1, ← hbs, e2, e3, e4, e5, ← hk, inBounds]
            simp [c1, hb1, c2, c3, hb2, hb3, c4, c5, hb4]
          · have hb4 : offset + be + k ≤ fd.length := by omega
            simp only [Certificate.Load, ht, ← hs, e1, ← hbs, e2, e3, e4, e5, ← hk, inBounds]
            simp [c1, hb1, c2, c3, hb2, hb3, c4, c5, hb4, e6, slice_length]

/-- The call of `Certificate::Load` for an offset past the end of the buffer:
`file_data.size() - offset` wraps around, and unless the wrapped value is below 4 the first
`memcpy` reads outside the buffer. -/
theorem Load_pastEnd (D : Decls) (self : Certificate) (fd : List u8) (offset : Nat)
    (hoff : fd.length < offset) (hoff64 : offset < 2 ^ 64) :
    Certificate.Load D self fd offset =
      if 2 ^ 64 - (offset - fd.length) < 4 then { ret := some 0, self := self, reads := [] }
      else { ret := none, self := self, reads := [(offset, 4)] } := by
  have ht : (fd.length + SIZE_T - offset) % SIZE_T = 2 ^ 64 - (offset - fd.length) := by
    unfold SIZE_T; omega
  have hb : ¬ offset + 4 ≤ fd.length := by omega
  simp only [Certificate.Load, ht, inBounds]
  by_cases c : 2 ^ 64 - (offset - fd.length) < 4
  · simp only [c, if_true]
  · simp [c, hb]

/-- A call of `Certificate::Load` that returns a non-zero size was made at an offset inside the
buffer and found a known signature type, a complete body, a known key type and a complete
public key. -/
theorem Load_success (D : Decls) (hD : D.Sane) (self : Certificate) (fd : List u8)
    (offset n : Nat) (hlen : fd.length < 2 ^ 64) (hoff64 : offset < 2 ^ 64) (s bs be k : Nat)
    (hs : s = D.GetSignatureSize (D.signature_type_value (slice fd offset 4)))
    (hbs : bs = AlignUp (s + 4) 0x40) (hbe : be = bs + D.sizeofBody)
    (hk : k = GetPublicKeySize D (D.key_type (slice fd (offset + bs) D.sizeofBody)))
    (hret : (Certificate.Load D self fd offset).ret = some n) (hn : n ≠ 0) :
    s ≠ 0 ∧ k ≠ 0 ∧ offset + be + k ≤ fd.length ∧ n = be + k ∧
      (Certificate.Load D self fd offset).self =
        { signature_type := slice fd offset 4, signature := slice fd (offset + 4) s,
          body := slice fd (offset + bs) D.sizeofBody,
          public_key := slice fd (offset + be) k } := by
  by_cases hoff : offset ≤ fd.length
  · rw [Load_inRange D hD self fd offset hlen hoff s bs be k hs hbs hbe hk] at hret ⊢
    by_cases c1 : fd.length - offset < 4
    · simp [c1] at hret; omega
    · by_cases c2 : s = 0 ∨ fd.length - offset < be
      · simp [c1, c2] at hret; omega
      · by_cases c4 : k = 0
        · simp [c1, c2, c4] at hret; omega
        · by_cases c5 : fd.length - offset < be + k
          · simp [c1, c2, c4, c5] at hret
          · simp only [c1, c2, c4, c5, if_false] at hret ⊢
            simp only [Option.some.injEq] at hret
            refine ⟨?_, c4, ?_, hret.symm, trivial⟩
            · intro h; exact c2 (Or.inl h)
            · omega
  · rw [Load_pastEnd D self fd offset (by omega) hoff64] at hret
    by_cases c : 2 ^ 64 - (offset - fd.length) < 4
    · rw [if_pos c] at hret
      simp only [Option.some.injEq] at hret
      omega
    · rw [if_neg c] at hret
      simp at hret

/-- A write of a non-empty byte string at or past the end of the in-memory file appends it,
after the zero bytes that fill the gap. -/
theorem MemFile.WriteBytes_atEnd (f : MemFile) (data : List u8) (hne : data ≠ [])
    (hpos : f.contents.length ≤ f.pos) :
    MemFile.WriteBytes f data =
      (data.length,
        { contents := f.contents ++ List.replicate (f.pos - f.contents.length) 0 ++ data,
          pos := f.pos + data.length }) := by
  have hl : (f.contents ++ List.replicate (f.pos - f.contents.length) 0).length = f.pos := by
    simp; omega
  unfold MemFile.WriteBytes
  rw [if_neg hne]
  simp only [Prod.mk.injEq, MemFile.mk.injEq, true_and, and_true]
  rw [List.take_of_length_le (by omega), List.drop_of_length_le (by omega), List.append_nil]

/-- A write of no bytes leaves the in-memory file as it is. -/
theorem MemFile.WriteBytes_nil (f : MemFile) : MemFile.WriteBytes f [] = (0, f) := by
  simp [MemFile.WriteBytes]

/-- The range of a vector that holds exactly the middle one of three concatenated pieces. -/
theorem slice_mid (a m r : List u8) (n l : Nat) (hn : n = a.length) (hl : l = m.length) :
    slice (a ++ m ++ r) n l = m := by
  subst hn hl
  simp [slice]

/-- What `Certificate::Save` leaves in an empty in-memory file: type code, signature, zero
padding up to the aligned body offset, body, public key. -/
theorem Save_memFile (D : Decls) (c : Certificate)
    (hst : c.signature_type.length = 4) (hbody : c.body.length = D.sizeofBody)
    (hsig : c.signature ≠ []) (hs32 : c.signature.length < 2 ^ 32)
    (hkey : c.public_key ≠ []) :
    Certificate.Save D memFile c { contents := [], pos := 0 } =
      (true,
        { contents := c.signature_type ++ c.signature
            ++ List.replicate (AlignUp (c.signature.length + 4) 0x40 - (c.signature.length + 4)) 0
            ++ c.body ++ c.public_key,
          pos := AlignUp (c.signature.length + 4) 0x40 + D.sizeofBody + c.public_key.length }) := by
  have hstne : c.signature_type ≠ [] := by
    intro h; rw [h] at hst; simp at hst
  have ha := alignUp_eq (c.signature.length + 4) (by omega)
  have e1 : (c.signature.length + 4) % SIZE_T = c.signature.length + 4 := by
    unfold SIZE_T; omega
  have e2 : (AlignUp (c.signature.length + 4) 0x40 + 2 * SIZE_T - c.signature.length - 4) % SIZE_T
      = AlignUp (c.signature.length + 4) 0x40 - (c.signature.length + 4) := by
    rw [ha]; unfold SIZE_T; omega
  have w1 := MemFile.WriteBytes_atEnd { contents := [], pos := 0 } c.signature_type hstne
    (by simp)
  have w2 := MemFile.WriteBytes_atEnd
    { contents := c.signature_type, pos := 4 } c.signature hsig (by simp [hst])
  simp only [List.length_nil, Nat.sub_self, List.replicate_zero, List.append_nil,
    List.nil_append, Nat.zero_add, hst] at w1 w2
  simp only [Certificate.Save, memFile, w1, hst, w2, e1, e2, MemFile.Seek, ne_eq,
    not_true_eq_false, if_false, Bool.not_true, Bool.false_eq_true]
  by_cases hb : c.body = []
  · have hb0 : D.sizeofBody = 0 := by rw [← hbody, hb]; rfl
    have w4 := MemFile.WriteBytes_atEnd
      { contents := c.signature_type ++ c.signature,
        pos := 4 + c.signature.length
          + (AlignUp (c.signature.length + 4) 0x40 - (c.signature.length + 4)) }
      c.public_key hkey (by simp [hst])
    simp only [List.length_append, hst] at w4
    simp only [hb, MemFile.WriteBytes_nil, hb0, w4, ne_eq, not_true_eq_false, if_false,
      List.append_nil, Prod.mk.injEq, MemFile.mk.injEq, true_and]
    constructor
    · congr 3; omega
    · omega
  · have w3 := MemFile.WriteBytes_atEnd
      { contents := c.signature_type ++ c.signature,
        pos := 4 + c.signature.length
          + (AlignUp (c.signature.length + 4) 0x40 - (c.signature.length + 4)) }
      c.body hb (by simp [hst])
    simp only [List.length_append, hst, hbody] at w3
    have w4 := MemFile.WriteBytes_atEnd
      { contents := c.signature_type ++ c.signature
          ++ List.replicate (4 + c.signature.length
            + (AlignUp (c.signature.length + 4) 0x40 - (c.signature.length + 4))
            - (4 + c.signature.length)) 0 ++ c.body,
        pos := 4 + c.signature.length
          + (AlignUp (c.signature.length + 4) 0x40 - (c.signature.length + 4)) + D.sizeofBody }
      c.public_key hkey (by simp [hst, hbody]; omega)
    simp only [w3, w4, ne_eq, not_true_eq_false, if_false, Prod.mk.injEq, MemFile.mk.injEq,
      true_and]
    constructor
    · simp [hst, hbody]
      omega
    · omega

/-! ## The codec: settled claims -/

/-- C3.  Body truncation: at an offset inside the buffer where four bytes are readable and the
signature type is known, if fewer than `body_end = AlignUp(signature_size + 4, 0x40) +
sizeof(Body)` bytes remain, `Certificate::Load` returns 0 and every range it read lies inside
the buffer. -/
theorem C3_body_truncation (D : Decls) (hD : D.Sane) (self : Certificate) (file_data : List u8)
    (offset s body_end : Nat)
    (hlen : file_data.length < 2 ^ 64) (hoff : offset ≤ file_data.length)
    (h4 : 4 ≤ file_data.length - offset)
    (hs : s = D.GetSignatureSize (D.signature_type_value (slice file_data offset 4)))
    (hknown : s ≠ 0)
    (hbe : body_end = AlignUp (s + 4) 0x40 + D.sizeofBody)
    (htrunc : file_data.length - offset < body_end) :
    (Certificate.Load D self file_data offset).ret = some 0 ∧
      ∀ p ∈ (Certificate.Load D self file_data offset).reads, p.1 + p.2 ≤ file_data.length := by
  rw [Load_inRange D hD self file_data offset hlen hoff s _ body_end _ hs rfl hbe rfl]
  have c1 : ¬ file_data.length - offset < 4 := by omega
  simp only [c1, if_false, htrunc, or_true, if_true, List.mem_singleton, true_and]
  intro p hp
  subst hp
  show offset + 4 ≤ file_data.length
  omega

/-- C3, at a record of the 3DS layout cut after 100 bytes (the body would end at byte 200). -/
theorem C3_body_truncation_witness :
    (Certificate.Load (ctr []) (Certificate.fresh (ctr []))
      (List.take 100 (sampleRecord [65] 7)) 0).ret = some 0 :=
  (C3_body_truncation (ctr []) (ctr_sane []) (Certificate.fresh (ctr []))
    (List.take 100 (sampleRecord [65] 7)) 0 0x3C 200
    (by decide!) (by decide!) (by decide!) (by decide!) (by decide!) (by decide!) (by decide!)).1

/-- C1.  Round trip: a certificate whose signature and public key have the non-zero sizes that
the size tables give for its signature type and key type is written by `Certificate::Save` to
an empty in-memory file without failure, and `Certificate::Load` at offset 0 of the written
bytes returns their number and yields the four members of the certificate. -/
theorem C1_round_trip (D : Decls) (hD : D.Sane) (c self : Certificate)
    (hst : c.signature_type.length = 4) (hbody : c.body.length = D.sizeofBody)
    (hsig0 : D.GetSignatureSize (D.signature_type_value c.signature_type) ≠ 0)
    (hsig : D.GetSignatureSize (D.signature_type_value c.signature_type) = c.signature.length)
    (hkey0 : GetPublicKeySize D (D.key_type c.body) ≠ 0)
    (hkey : GetPublicKeySize D (D.key_type c.body) = c.public_key.length) :
    (Certificate.Save D memFile c { contents := [], pos := 0 }).1 = true ∧
      (Certificate.Load D self
        (Certificate.Save D memFile c { contents := [], pos := 0 }).2.contents 0).ret
        = some (Certificate.Save D memFile c { contents := [], pos := 0 }).2.contents.length ∧
      (Certificate.Load D self
        (Certificate.Save D memFile c { contents := [], pos := 0 }).2.contents 0).self = c := by
  have hs32 : c.signature.length < 2 ^ 32 := hsig ▸ hD.sig_lt _
  have hb32 := hD.body_lt
  have hk32 : c.public_key.length ≤ 0x238 := hkey ▸ GetPublicKeySize_le D _
  have hsne : c.signature ≠ [] := by
    intro h; rw [h] at hsig; exact hsig0 hsig
  have hkne : c.public_key ≠ [] := by
    intro h; rw [h] at hkey; exact hkey0 hkey
  have ha := alignUp_eq (c.signature.length + 4) (by omega)
  rw [Save_memFile D c hst hbody hsne hs32 hkne]
  refine ⟨rfl, ?_⟩
  simp only
  generalize hb : c.signature_type ++ c.signature
      ++ List.replicate (AlignUp (c.signature.length + 4) 0x40 - (c.signature.length + 4)) 0
      ++ c.body ++ c.public_key = b
  have hblen : b.length = AlignUp (c.signature.length + 4) 0x40 + D.sizeofBody
      + c.public_key.length := by
    rw [← hb]; simp [hst, hbody]; omega
  have h1 : slice b 0 4 = c.signature_type := by
    rw [← hb]
    have := slice_mid [] c.signature_type
      (c.signature
        ++ List.replicate (AlignUp (c.signature.length + 4) 0x40 - (c.signature.length + 4)) 0
        ++ c.body ++ c.public_key) 0 4 rfl hst.symm
    simpa using this
  have h2 : slice b (0 + 4) c.signature.length = c.signature := by
    rw [← hb]
    have := slice_mid c.signature_type c.signature
      (List.replicate (AlignUp (c.signature.length + 4) 0x40 - (c.signature.length + 4)) 0
        ++ c.body ++ c.public_key) (0 + 4) c.signature.length (by simp [hst]) rfl
    simpa using this
  have h3 : slice b (0 + AlignUp (c.signature.length + 4) 0x40) D.sizeofBody = c.body := by
    rw [← hb]
    exact slice_mid _ c.body c.public_key _ _ (by simp [hst]; omega) hbody.symm
  have h4 : slice b (0 + (AlignUp (c.signature.length + 4) 0x40 + D.sizeofBody))
      c.public_key.length = c.public_key := by
    rw [← hb]
    have := slice_mid (c.signature_type ++ c.signature
        ++ List.replicate (AlignUp (c.signature.length + 4) 0x40 - (c.signature.length + 4)) 0
        ++ c.body) c.public_key [] (0 + (AlignUp (c.signature.length + 4) 0x40 + D.sizeofBody))
      c.public_key.length (by simp [hst, hbody]; omega) rfl
    simpa using this
  rw [Load_inRange D hD self b 0 (by omega) (Nat.zero_le _) c.signature.length
    (AlignUp (c.signature.length + 4) 0x40)
    (AlignUp (c.signature.length + 4) 0x40 + D.sizeofBody) c.public_key.length
    (by rw [h1, hsig]) rfl rfl (by rw [h3, hkey])]
  have c1 : ¬ b.length - 0 < 4 := by omega
  have c2 : ¬ (c.signature.length = 0 ∨
      b.length - 0 < AlignUp (c.signature.length + 4) 0x40 + D.sizeofBody) := by
    have : c.signature.length ≠ 0 := fun h => hsig0 (hsig.trans h)
    omega
  have c3 : ¬ c.public_key.length = 0 := fun h => hkey0 (hkey.trans h)
  have c4 : ¬ b.length - 0 < AlignUp (c.signature.length + 4) 0x40 + D.sizeofBody
      + c.public_key.length := by omega
  rw [if_neg c1, if_neg c2, if_neg c3, if_neg c4]
  simp only [h1, h2, h3, h4, hblen, and_self]

/-- C1, at a certificate of the 3DS layout named `A`. -/
theorem C1_round_trip_witness :
    (Certificate.Load (ctr []) (Certificate.fresh (ctr []))
      (Certificate.Save (ctr []) memFile (sampleCert [65] 7)
        { contents := [], pos := 0 }).2.contents 0).self = sampleCert [65] 7 :=
  (C1_round_trip (ctr []) (ctr_sane []) (sampleCert [65] 7) (Certificate.fresh (ctr []))
    (by decide!) (by decide!) (by decide!) (by decide!) (by decide!) (by decide!)).2.2

/-- The ranges that a call of `Certificate::Load` decodes when none of its reads leaves the
buffer, which is the only case in which the embedding gives the call a return value: if that
value `n` is not zero, then with `s` the signature size of the type code at `offset`,
`body_start = AlignUp(s + 4, 0x40)`, `body_end = body_start + sizeof(Body)` and `k` the
public-key size of the key type in the body, the signature is the `s` bytes at `offset + 4`,
the body the `sizeof(Body)` bytes at `offset + body_start`, the public key the `k` bytes at
`offset + body_end`, and `n = body_end + k = 4 + s + padding + sizeof(Body) + k`.  Calls whose
public-key read leaves the buffer are not covered: see `Load_publicKey_truncated`. -/
theorem Load_decoded_ranges (D : Decls) (hD : D.Sane) (self : Certificate)
    (file_data : List u8) (offset n s body_start body_end k : Nat)
    (hlen : file_data.length < 2 ^ 64) (hoff64 : offset < 2 ^ 64)
    (hret : (Certificate.Load D self file_data offset).ret = some n) (hn : n ≠ 0)
    (hs : s = D.GetSignatureSize (D.signature_type_value (slice file_data offset 4)))
    (hbs : body_start = AlignUp (s + 4) 0x40) (hbe : body_end = body_start + D.sizeofBody)
    (hk : k = GetPublicKeySize D
      (D.key_type (slice file_data (offset + body_start) D.sizeofBody))) :
    (Certificate.Load D self file_data offset).self.signature = slice file_data (offset + 4) s ∧
      (Certificate.Load D self file_data offset).self.signature.length = s ∧
      (Certificate.Load D self file_data offset).self.body
        = slice file_data (offset + body_start) D.sizeofBody ∧
      (Certificate.Load D self file_data offset).self.body.length = D.sizeofBody ∧
      (Certificate.Load D self file_data offset).self.public_key
        = slice file_data (offset + body_end) k ∧
      (Certificate.Load D self file_data offset).self.public_key.length = k ∧
      n = body_end + k ∧
      n = 4 + s + (64 - (4 + s) % 64) % 64 + D.sizeofBody + k := by
  obtain ⟨_, _, hfit, hn', hself⟩ :=
    Load_success D hD self file_data offset n hlen hoff64 s body_start body_end k hs hbs hbe hk
      hret hn
  have hs32 : s < 2 ^ 32 := hs ▸ hD.sig_lt _
  have ha := alignUp_eq (s + 4) (by omega)
  rw [hself]
  refine ⟨rfl, ?_, rfl, ?_, rfl, ?_, hn', ?_⟩
  · exact slice_length _ _ _ (by omega)
  · exact slice_length _ _ _ (by omega)
  · exact slice_length _ _ _ (by omega)
  · omega

/-- The decoded ranges at the record of a certificate of the 3DS layout that follows a 16-byte
header. -/
theorem Load_decoded_ranges_example :
    (Certificate.Load (ctr []) (Certificate.fresh (ctr []))
      (sampleHeader 0x140 ++ sampleRecord [65] 7) 16).self.public_key
      = slice (sampleHeader 0x140 ++ sampleRecord [65] 7) (16 + 200) 0x78 :=
  (Load_decoded_ranges (ctr []) (ctr_sane []) (Certificate.fresh (ctr []))
    (sampleHeader 0x140 ++ sampleRecord [65] 7) 16 320 0x3C 64 200 0x78
    (by decide!) (by decide!) (by decide!) (by decide!) (by decide!) (by decide!) (by decide!)
    (by decide!)).2.2.2.2.1

/-- C9.  Unknown algorithm codes: at an offset with four readable bytes, if the signature-size
lookup of the code at `offset` gives 0, or the body is complete and its `key_type` is none of
`RSA_4096`, `RSA_2048`, `ECC`, then `Certificate::Load` returns 0. -/
theorem C9_unknown_codes (D : Decls) (hD : D.Sane) (self : Certificate) (file_data : List u8)
    (offset s body_start body_end key_type : Nat)
    (hlen : file_data.length < 2 ^ 64) (hoff : offset ≤ file_data.length)
    (h4 : 4 ≤ file_data.length - offset)
    (hs : s = D.GetSignatureSize (D.signature_type_value (slice file_data offset 4)))
    (hbs : body_start = AlignUp (s + 4) 0x40) (hbe : body_end = body_start + D.sizeofBody)
    (hkt : key_type = D.key_type (slice file_data (offset + body_start) D.sizeofBody))
    (hunknown : s = 0 ∨ (body_end ≤ file_data.length - offset ∧
      key_type ≠ D.RSA_4096 ∧ key_type ≠ D.RSA_2048 ∧ key_type ≠ D.ECC)) :
    (Certificate.Load D self file_data offset).ret = some 0 := by
  rw [Load_inRange D hD self file_data offset hlen hoff s body_start body_end _ hs hbs hbe rfl]
  have c1 : ¬ file_data.length - offset < 4 := by omega
  rw [if_neg c1]
  rcases hunknown with h0 | ⟨hfit, h1, h2, h3⟩
  · rw [if_pos (Or.inl h0)]
  · by_cases c2 : s = 0 ∨ file_data.length - offset < body_end
    · rw [if_pos c2]
    · have hk0 : GetPublicKeySize D
          (D.key_type (slice file_data (offset + body_start) D.sizeofBody)) = 0 := by
        rw [← hkt]
        simp [GetPublicKeySize, h1, h2, h3]
      rw [if_neg c2, if_pos hk0]

/-- C9, at a record of the 3DS layout whose type code 0x00010009 is not a signature type. -/
theorem C9_unknown_codes_witness :
    (Certificate.Load (ctr []) (Certificate.fresh (ctr []))
      ([0, 1, 0, 9] ++ List.replicate 60 7) 0).ret = some 0 :=
  C9_unknown_codes (ctr []) (ctr_sane []) (Certificate.fresh (ctr []))
    ([0, 1, 0, 9] ++ List.replicate 60 7) 0 0 64 200 0
    (by decide!) (by decide!) (by decide!) (by decide!) (by decide!) (by decide!) (by decide!)
    (Or.inl rfl)

/-- At an offset inside the buffer with fewer than four bytes left, `Certificate::Load` returns
0, reads nothing and leaves the object as it was. -/
theorem Load_short (D : Decls) (self : Certificate) (fd : List u8) (offset : Nat)
    (hoff : offset ≤ fd.length) (h : fd.length - offset < 4) :
    Certificate.Load D self fd offset = { ret := some 0, self := self, reads := [] } := by
  have ht : (fd.length + SIZE_T - offset) % SIZE_T = fd.length - offset := by
    unfold SIZE_T; omega
  simp only [Certificate.Load, ht]
  rw [if_pos h]

/-- When the type code and the key type are known and the body is complete but fewer than
`body_end + public_key_size` bytes remain, `Certificate::Load` passes every check and its last
`memcpy` is given a source range that ends past the buffer. -/
theorem Load_publicKey_truncated (D : Decls) (hD : D.Sane) (self : Certificate) (fd : List u8)
    (offset s bs be k : Nat) (hlen : fd.length < 2 ^ 64) (hoff : offset ≤ fd.length)
    (hs : s = D.GetSignatureSize (D.signature_type_value (slice fd offset 4)))
    (hbs : bs = AlignUp (s + 4) 0x40) (hbe : be = bs + D.sizeofBody)
    (hk : k = GetPublicKeySize D (D.key_type (slice fd (offset + bs) D.sizeofBody)))
    (hs0 : s ≠ 0) (hk0 : k ≠ 0) (hbody : be ≤ fd.length - offset)
    (htrunc : fd.length - offset < be + k) :
    (Certificate.Load D self fd offset).ret = none ∧
      (offset + be, k) ∈ (Certificate.Load D self fd offset).reads ∧
      fd.length < offset + be + k := by
  have hs32 : s < 2 ^ 32 := hs ▸ hD.sig_lt _
  have ha := alignUp_eq (s + 4) (by omega)
  rw [Load_inRange D hD self fd offset hlen hoff s bs be k hs hbs hbe hk]
  have c1 : ¬ fd.length - offset < 4 := by omega
  have c2 : ¬ (s = 0 ∨ fd.length - offset < be) := by omega
  rw [if_neg c1, if_neg c2, if_neg hk0, if_pos htrunc]
  refine ⟨rfl, by simp, by omega⟩

/-- C2.  A record of the 3DS layout cut after 250 bytes: the type code is known (signature size
0x3C), the 200 bytes up to `body_end` are present, the key type is ECC (key size 0x78), and
200 + 0x78 exceeds 250.  `Certificate::Load` does not return 0: after the reads of the type
code, the signature and the body it copies the range `[200, 320)` of a 250-byte buffer.  The
same happens inside `Certs::Load` when these bytes are the payload of a database. -/
theorem C2_public_key_read_past_end :
    (List.take 250 (sampleRecord [65] 7)).length = 250 ∧
    (ctr []).GetSignatureSize ((ctr []).signature_type_value
      (slice (List.take 250 (sampleRecord [65] 7)) 0 4)) = 0x3C ∧
    GetPublicKeySize (ctr []) ((ctr []).key_type
      (slice (List.take 250 (sampleRecord [65] 7)) 64 0x88)) = 0x78 ∧
    Certificate.Load (ctr []) (Certificate.fresh (ctr [])) (List.take 250 (sampleRecord [65] 7)) 0
      = { ret := none,
          self := { sampleCert [65] 7 with public_key := [] },
          reads := [(0, 4), (4, 0x3C), (64, 0x88), (200, 0x78)] } ∧
    (Certs.Load (ctr []) Certs.State.init
      { IsGood := true,
        GetIVFCLevel4Data := some [sampleHeader 250 ++ List.take 250 (sampleRecord [65] 7)] }).ret
      = Certs.Ret.undefined := by
  decide!

/-- C10.  With an empty buffer and offset 1, `file_data.size() - offset` wraps around to
`2 ^ 64 - 1`, the test `total_size < sizeof(u32)` does not fire, and `Certificate::Load` copies
four bytes from index 1 of the empty buffer instead of returning 0 without a read. -/
theorem C10_offset_past_end (D : Decls) (self : Certificate) :
    Certificate.Load D self [] 1 = { ret := none, self := self, reads := [(1, 4)] } := by
  rw [Load_pastEnd D self [] 1 (by simp) (by norm_num)]
  simp

/-- C8.  A call that passes every check of `Certificate::Load` and for which the postcondition
cannot hold: a record of the 3DS layout cut after 250 bytes, read at offset 0.  The signature
size is 0x3C, so `body_end = 64 + 0x88 = 200`, which the 250 bytes cover; the key type is ECC,
so `k = 0x78`.  The source then copies `k` bytes from index 200 and returns
`body_end + k = 320`, a non-zero size, although only 50 bytes follow index 200: `public_key`
is not the `k` bytes at `offset + body_end`, and the returned size exceeds the buffer.  In the
embedding the call ends at that copy, whose source range `[200, 320)` leaves the buffer. -/
theorem C8_nonzero_return_without_key_bytes :
    (List.take 250 (sampleRecord [65] 7)).length = 250 ∧
    (ctr []).GetSignatureSize ((ctr []).signature_type_value
      (slice (List.take 250 (sampleRecord [65] 7)) 0 4)) = 0x3C ∧
    AlignUp (0x3C + 4) 0x40 + (ctr []).sizeofBody = 200 ∧
    GetPublicKeySize (ctr []) ((ctr []).key_type
      (slice (List.take 250 (sampleRecord [65] 7)) 64 0x88)) = 0x78 ∧
    (slice (List.take 250 (sampleRecord [65] 7)) 200 0x78).length = 50 ∧
    ¬ 200 + 0x78 ≤ (List.take 250 (sampleRecord [65] 7)).length ∧
    (Certificate.Load (ctr []) (Certificate.fresh (ctr []))
      (List.take 250 (sampleRecord [65] 7)) 0).ret ≠ some 0 ∧
    (Certificate.Load (ctr []) (Certificate.fresh (ctr []))
      (List.take 250 (sampleRecord [65] 7)) 0).reads.getLast? = some (200, 0x78) := by
  decide!

namespace Certs

/-! ## Lemmas on the registry -/

theorem lookup_emplace (g : Registry) (k name : List u8) (v : Certificate) :
    lookup (emplace g k v) name = (lookup g name).or (if k = name then some v else none) := by
  unfold emplace
  by_cases h : g.any (fun e => decide (e.1 = k)) = true
  · rw [if_pos h]
    by_cases hk : k = name
    · subst hk
      obtain ⟨e, he, hek⟩ := List.any_eq_true.mp h
      have : ∃ c, lookup g k = some c := by
        unfold lookup
        cases hf : g.find? (fun e => decide (e.1 = k)) with
        | none =>
          have := List.find?_eq_none.mp hf e he
          exact absurd hek this
        | some x => exact ⟨x.2, rfl⟩
      obtain ⟨c, hc⟩ := this
      simp [hc]
    · simp [hk]
  · rw [if_neg h]
    unfold lookup
    rw [List.find?_append]
    by_cases hk : k = name
    · cases hf : g.find? (fun e => decide (e.1 = name)) <;> simp [hk]
    · cases hf : g.find? (fun e => decide (e.1 = name)) <;> simp [hk]

theorem lookup_emplaceAll (es : List (List u8 × Certificate)) (g : Registry) (name : List u8) :
    lookup (emplaceAll g es) name
      = (lookup g name).or ((es.find? (fun e => decide (e.1 = name))).map (fun e => e.2)) := by
  induction es generalizing g with
  | nil => simp [emplaceAll]
  | cons e es ih =>
    have : emplaceAll g (e :: es) = emplaceAll (emplace g e.1 e.2) es := rfl
    rw [this, ih, lookup_emplace]
    by_cases hk : e.1 = name
    · cases hl : lookup g name <;> simp [hk, List.find?_cons]
    · cases hl : lookup g name <;> simp [hk, List.find?_cons]

theorem count_eq_zero_iff (g : Registry) (name : List u8) :
    count g name = 0 ↔ lookup g name = none := by
  unfold count lookup
  by_cases h : g.any (fun e => decide (e.1 = name)) = true
  · rw [if_pos h]
    obtain ⟨e, he, hek⟩ := List.any_eq_true.mp h
    cases hf : g.find? (fun e => decide (e.1 = name)) with
    | none => exact absurd hek (List.find?_eq_none.mp hf e he)
    | some x => simp
  · rw [if_neg h]
    simp only [true_iff, Option.map_eq_none']
    rw [List.find?_eq_none]
    intro e he hek
    exact h (List.any_eq_true.mpr ⟨e, he, hek⟩)

theorem lookup_eq_none_iff (g : Registry) (name : List u8) :
    lookup g name = none ↔ ∀ cert, (name, cert) ∉ g := by
  unfold lookup
  simp only [Option.map_eq_none', List.find?_eq_none, decide_eq_true_eq]
  constructor
  · intro h cert hm
    exact h _ hm rfl
  · intro h e he hek
    exact h e.2 (by rw [← hek]; exact he)

theorem recordsAt_cons (D : Decls) (data0 : List u8) (pos : Nat) (ps : List Nat) :
    recordsAt D data0 (pos :: ps)
      = (match recordAt D data0 pos with
          | none => recordsAt D data0 ps
          | some e => e :: recordsAt D data0 ps) := by
  unfold recordsAt
  rw [List.filterMap_cons]
  cases recordAt D data0 pos <;> rfl

/-- The record loop appends to `calls` the positions it visits, and its registry is the given
one after `emplace` of the entries of the records at these positions, in order.  When the loop
runs to completion every visited position held a record. -/
theorem loop_spec (D : Decls) (data0 : List u8) (total : Nat) :
    ∀ (fuel pos : Nat) (g : Registry) (calls : List Nat),
      ∃ new, (loop D data0 total fuel pos g calls).calls = calls ++ new ∧
        (loop D data0 total fuel pos g calls).g_certs = emplaceAll g (recordsAt D data0 new) ∧
        ((loop D data0 total fuel pos g calls).exit = LoopExit.completed →
          ∀ p ∈ new, ∃ e, recordAt D data0 p = some e) := by
  intro fuel
  induction fuel with
  | zero =>
    intro pos g calls
    refine ⟨[], ?_, ?_, ?_⟩ <;> simp only [loop] <;> split_ifs <;> simp [emplaceAll, recordsAt]
  | succ fuel ih =>
    intro pos g calls
    by_cases hpos : pos < total
    · cases hr : (Certificate.Load D (Certificate.fresh D) data0 pos).ret with
      | none =>
        have hrec : recordAt D data0 pos = none := by simp [recordAt, hr]
        refine ⟨[pos], ?_, ?_, ?_⟩ <;>
          simp [loop, hpos, hr, recordsAt_cons, hrec, emplaceAll, recordsAt]
      | some size =>
        by_cases hz : size = 0
        · have hrec : recordAt D data0 pos = none := by simp [recordAt, hr, hz]
          refine ⟨[pos], ?_, ?_, ?_⟩ <;>
            simp [loop, hpos, hr, hz, recordsAt_cons, hrec, emplaceAll, recordsAt]
        · have hrec : recordAt D data0 pos
              = some (D.name (Certificate.Load D (Certificate.fresh D) data0 pos).self.body,
                  (Certificate.Load D (Certificate.fresh D) data0 pos).self) := by
            simp [recordAt, hr, hz]
          obtain ⟨new, h1, h2, h3⟩ := ih ((pos + size) % SIZE_T)
            (emplace g (D.name (Certificate.Load D (Certificate.fresh D) data0 pos).self.body)
              (Certificate.Load D (Certificate.fresh D) data0 pos).self) (calls ++ [pos])
          refine ⟨pos :: new, ?_, ?_, ?_⟩
          · simp only [loop, hpos, if_true, hr, hz, if_false]
            rw [h1]; simp
          · simp only [loop, hpos, if_true, hr, hz, if_false]
            rw [h2, recordsAt_cons, hrec]
            rfl
          · simp only [loop, hpos, if_true, hr, hz, if_false]
            intro hc p hp
            rcases List.mem_cons.mp hp with rfl | hp
            · exact ⟨_, hrec⟩
            · exact h3 hc p hp
    · refine ⟨[], ?_, ?_, ?_⟩ <;> simp [loop, hpos, emplaceAll, recordsAt]

/-- Whether and where the record loop fails does not depend on the registry: an entry that
`emplace` does not insert changes nothing in the course of the loop. -/
theorem loop_exit_indep (D : Decls) (data0 : List u8) (total : Nat) :
    ∀ (fuel pos : Nat) (g g' : Registry) (calls calls' : List Nat),
      (loop D data0 total fuel pos g calls).exit = (loop D data0 total fuel pos g' calls').exit := by
  intro fuel
  induction fuel with
  | zero =>
    intro pos g g' calls calls'
    simp only [loop]; split_ifs <;> rfl
  | succ fuel ih =>
    intro pos g g' calls calls'
    by_cases hpos : pos < total
    · cases hr : (Certificate.Load D (Certificate.fresh D) data0 pos).ret with
      | none => simp [loop, hpos, hr]
      | some size =>
        by_cases hz : size = 0
        · simp [loop, hpos, hr, hz]
        · simp only [loop, hpos, if_true, hr, hz, if_false]
          exact ih _ _ _ _ _
    · simp [loop, hpos]

/-- The iteration budget `total` is never used up: every pass that continues moves `pos`
forward by at least one byte. -/
theorem loop_exit_ne_unfinished (D : Decls) (hD : D.Sane) (data0 : List u8) (total : Nat)
    (hlen : data0.length < 2 ^ 64) (htot : total < 2 ^ 64) :
    ∀ (fuel pos : Nat) (g : Registry) (calls : List Nat), total - pos ≤ fuel →
      (loop D data0 total fuel pos g calls).exit ≠ LoopExit.unfinished := by
  intro fuel
  induction fuel with
  | zero =>
    intro pos g calls hf
    have : ¬ pos < total := by omega
    simp [loop, this]
  | succ fuel ih =>
    intro pos g calls hf
    by_cases hpos : pos < total
    · cases hr : (Certificate.Load D (Certificate.fresh D) data0 pos).ret with
      | none => simp [loop, hpos, hr]
      | some size =>
        by_cases hz : size = 0
        · simp [loop, hpos, hr, hz]
        · simp only [loop, hpos, if_true, hr, hz, if_false]
          obtain ⟨_, _, hfit, hsz, _⟩ := Load_success D hD (Certificate.fresh D) data0 pos size
            hlen (by omega) _ _ _ _ rfl rfl rfl rfl hr hz
          apply ih
          have : (pos + size) % SIZE_T = pos + size := by unfold SIZE_T; omega
          rw [this]; omega
    · simp [loop, hpos]

/-- Normal form of `Certs::Load` on a block that passes the header checks. -/
theorem Load_checked (D : Decls) (s : State) (c : DataContainer) (data0 header : List u8)
    (rest : List (List u8)) (total_size : Nat)
    (hgood : c.IsGood = true) (hdata : c.GetIVFCLevel4Data = some (data0 :: rest))
    (hhdr : TRY_MEMCPY D data0 = some header) (hmagic : D.header_magic header = D.magicCERT)
    (htot : total_size = (D.header_size header + D.sizeofHeader) % SIZE_T)
    (hsize : total_size ≤ data0.length) :
    Load D s c =
      match (loop D data0 total_size total_size D.sizeofHeader [] []).exit with
      | .unfinished =>
        { ret := .unfinished,
          state := { g_certs := (loop D data0 total_size total_size D.sizeofHeader [] []).g_certs,
                     g_is_loaded := s.g_is_loaded },
          calls := (loop D data0 total_size total_size D.sizeofHeader [] []).calls }
      | .undefined =>
        { ret := .undefined,
          state := { g_certs := (loop D data0 total_size total_size D.sizeofHeader [] []).g_certs,
                     g_is_loaded := s.g_is_loaded },
          calls := (loop D data0 total_size total_size D.sizeofHeader [] []).calls }
      | .failed =>
        { ret := .value false,
          state := { g_certs := (loop D data0 total_size total_size D.sizeofHeader [] []).g_certs,
                     g_is_loaded := s.g_is_loaded },
          calls := (loop D data0 total_size total_size D.sizeofHeader [] []).calls }
      | .completed =>
        if D.CIACertNames.all (fun cert =>
            count (loop D data0 total_size total_size D.sizeofHeader [] []).g_certs cert ≠ 0) then
          { ret := .value true,
            state := { g_certs := (loop D data0 total_size total_size D.sizeofHeader [] []).g_certs,
                       g_is_loaded := true },
            calls := (loop D data0 total_size total_size D.sizeofHeader [] []).calls }
        else
          { ret := .value false,
            state := { g_certs := (loop D data0 total_size total_size D.sizeofHeader [] []).g_certs,
                       g_is_loaded := s.g_is_loaded },
            calls := (loop D data0 total_size total_size D.sizeofHeader [] []).calls } := by
  have hsz : ¬ data0.length < total_size := by omega
  subst htot
  simp only [Load, hgood, hdata, hhdr, hmagic, hsz, Bool.not_true, Bool.false_eq_true, if_false,
    ne_eq, not_true_eq_false]

/-- The registry after any call of `Certs::Load` holds, under each name, the first record of
that name among the positions that were decoded. -/
theorem Load_registry (D : Decls) (s : State) (c : DataContainer) (data0 : List u8)
    (rest : List (List u8)) (hdata : c.GetIVFCLevel4Data = some (data0 :: rest))
    (name : List u8) :
    lookup (Load D s c).state.g_certs name
      = ((recordsAt D data0 (Load D s c).calls).find? (fun e => decide (e.1 = name))).map
          (fun e => e.2) := by
  by_cases hgood : c.IsGood = true
  · cases hhdr : TRY_MEMCPY D data0 with
    | none => simp [Load, hgood, hdata, hhdr, lookup, recordsAt]
    | some header =>
      by_cases hmagic : D.header_magic header = D.magicCERT
      · by_cases hsize : (D.header_size header + D.sizeofHeader) % SIZE_T ≤ data0.length
        · obtain ⟨new, h1, h2, _⟩ := loop_spec D data0
            ((D.header_size header + D.sizeofHeader) % SIZE_T)
            ((D.header_size header + D.sizeofHeader) % SIZE_T) D.sizeofHeader [] []
          rw [List.nil_append] at h1
          have key : lookup (loop D data0 ((D.header_size header + D.sizeofHeader) % SIZE_T)
              ((D.header_size header + D.sizeofHeader) % SIZE_T) D.sizeofHeader [] []).g_certs name
              = ((recordsAt D data0 (loop D data0
                  ((D.header_size header + D.sizeofHeader) % SIZE_T)
                  ((D.header_size header + D.sizeofHeader) % SIZE_T)
                  D.sizeofHeader [] []).calls).find? (fun e => decide (e.1 = name))).map
                  (fun e => e.2) := by
            rw [h1, h2, lookup_emplaceAll]
            simp [lookup]
          rw [Load_checked D s c data0 header rest _ hgood hdata hhdr hmagic rfl hsize]
          cases hx : (loop D data0 ((D.header_size header + D.sizeofHeader) % SIZE_T)
              ((D.header_size header + D.sizeofHeader) % SIZE_T) D.sizeofHeader [] []).exit
          · simp only []
            split_ifs <;> exact key
          · exact key
          · exact key
          · exact key
        · have hsz : data0.length < (D.header_size header + D.sizeofHeader) % SIZE_T := by
            omega
          simp [Load, hgood, hdata, hhdr, hmagic, hsz, lookup, recordsAt]
      · simp [Load, hgood, hdata, hhdr, hmagic, lookup, recordsAt]
  · simp [Load, hgood, lookup, recordsAt]

/-- What `recordAt` yields is the name and the certificate that `Certificate::Load` decodes. -/
theorem recordAt_some (D : Decls) (data0 : List u8) (p : Nat) (e : List u8 × Certificate)
    (h : recordAt D data0 p = some e) :
    e = (D.name (Certificate.Load D (Certificate.fresh D) data0 p).self.body,
      (Certificate.Load D (Certificate.fresh D) data0 p).self) := by
  unfold recordAt at h
  cases hr : (Certificate.Load D (Certificate.fresh D) data0 p).ret with
  | none => simp [hr] at h
  | some size =>
    by_cases hz : size = 0
    · simp [hr, hz] at h
    · simp [hr, hz] at h
      exact h.symm

/-- The function `Certs::Load` never clears `g_is_loaded`. -/
theorem Load_keeps_flag (D : Decls) (s : State) (c : DataContainer)
    (h : s.g_is_loaded = true) : (Load D s c).state.g_is_loaded = true := by
  unfold Load
  simp only []
  repeat' split
  all_goals first | exact h | rfl

/-- A call of `Certs::Load` that does not return true leaves `g_is_loaded` as it was; in
particular a failed load from a state that is not loaded leaves it not loaded. -/
theorem Load_flag_unchanged (D : Decls) (s : State) (c : DataContainer)
    (h : (Load D s c).ret ≠ Ret.value true) :
    (Load D s c).state.g_is_loaded = s.g_is_loaded := by
  unfold Load at h ⊢
  simp only [] at h ⊢
  repeat' split
  all_goals first | rfl | (exfalso; simp_all)

/-- The function `Certs::Load` always ends within the iteration budget of the embedding. -/
theorem Load_ret_ne_unfinished (D : Decls) (hD : D.Sane) (s : State) (c : DataContainer)
    (hlen : ∀ data0 rest, c.GetIVFCLevel4Data = some (data0 :: rest) → data0.length < 2 ^ 64) :
    (Load D s c).ret ≠ Ret.unfinished := by
  by_cases hgood : c.IsGood = true
  · cases hdata : c.GetIVFCLevel4Data with
    | none => simp [Load, hgood, hdata]
    | some data =>
      cases data with
      | nil => simp [Load, hgood, hdata]
      | cons data0 rest =>
        cases hhdr : TRY_MEMCPY D data0 with
        | none => simp [Load, hgood, hdata, hhdr]
        | some header =>
          by_cases hmagic : D.header_magic header = D.magicCERT
          · by_cases hsize : (D.header_size header + D.sizeofHeader) % SIZE_T ≤ data0.length
            · have hne := loop_exit_ne_unfinished D hD data0
                ((D.header_size header + D.sizeofHeader) % SIZE_T) (hlen data0 rest hdata)
                (Nat.mod_lt _ (by unfold SIZE_T; norm_num))
                ((D.header_size header + D.sizeofHeader) % SIZE_T) D.sizeofHeader [] []
                (Nat.sub_le _ _)
              rw [Load_checked D s c data0 header rest _ hgood hdata hhdr hmagic rfl hsize]
              cases hx : (loop D data0 ((D.header_size header + D.sizeofHeader) % SIZE_T)
                  ((D.header_size header + D.sizeofHeader) % SIZE_T) D.sizeofHeader [] []).exit
              · simp only []
                split_ifs <;> simp
              · simp
              · simp
              · exact absurd hx hne
            · have hsz : data0.length < (D.header_size header + D.sizeofHeader) % SIZE_T := by
                omega
              simp [Load, hgood, hdata, hhdr, hmagic, hsz]
          · simp [Load, hgood, hdata, hhdr, hmagic]
  · simp [Load, hgood]

/-! ## The registry: settled claims -/

/-- C4.  A load of a valid database (one certificate `A`, which is the required one) returns
true; a following load whose container is not good returns false, and `IsLoaded()` still
returns true after it: `g_certs` is cleared at the start of every load, `g_is_loaded` is
not. -/
theorem C4_failed_reload_keeps_flag :
    (Load (ctr [[65]]) State.init (sampleDatabase (sampleRecord [65] 7))).ret = Ret.value true ∧
    (Load (ctr [[65]])
      (Load (ctr [[65]]) State.init (sampleDatabase (sampleRecord [65] 7))).state
      { IsGood := false, GetIVFCLevel4Data := none }).ret = Ret.value false ∧
    IsLoaded (Load (ctr [[65]])
      (Load (ctr [[65]]) State.init (sampleDatabase (sampleRecord [65] 7))).state
      { IsGood := false, GetIVFCLevel4Data := none }).state = true ∧
    (Load (ctr [[65]])
      (Load (ctr [[65]]) State.init (sampleDatabase (sampleRecord [65] 7))).state
      { IsGood := false, GetIVFCLevel4Data := none }).state.g_certs = [] := by
  decide!

/-- C5, as stated, fails: in a database with two records named `A` (signature and key bytes 7 in
the first, 8 in the second) both records decode to the key `A`, `Certs::Load` returns true, and
the registry maps `A` to the first record, not to the later one. -/
theorem C5_last_write_wins_counterexample :
    recordAt (ctr []) (sampleHeader 0x280 ++ (sampleRecord [65] 7 ++ sampleRecord [65] 8)) 16
      = some ([65], sampleCert [65] 7) ∧
    recordAt (ctr []) (sampleHeader 0x280 ++ (sampleRecord [65] 7 ++ sampleRecord [65] 8)) 336
      = some ([65], sampleCert [65] 8) ∧
    (Load (ctr []) State.init
      (sampleDatabase (sampleRecord [65] 7 ++ sampleRecord [65] 8))).ret = Ret.value true ∧
    (Load (ctr []) State.init
      (sampleDatabase (sampleRecord [65] 7 ++ sampleRecord [65] 8))).calls = [16, 336] ∧
    Get (Load (ctr []) State.init
      (sampleDatabase (sampleRecord [65] 7 ++ sampleRecord [65] 8))).state [65]
      = some (sampleCert [65] 7) ∧
    ¬ Get (Load (ctr []) State.init
      (sampleDatabase (sampleRecord [65] 7 ++ sampleRecord [65] 8))).state [65]
      = some (sampleCert [65] 8) := by
  decide!

/-- C5, amended.  Duplicate names are first-write-wins: if the positions decoded by
`Certs::Load` are `before ++ p :: after`, the bytes at `p` decode to the entry `e`, and no
record at a position of `before` has the name of `e`, then after the call the registry maps
that name to the certificate of `e`, whatever records of the same name follow in `after`.
A duplicate is no failure: how the record loop ends does not depend on the registry it
inserts into. -/
theorem C5_first_write_wins (D : Decls) (s : State) (c : DataContainer) (data0 : List u8)
    (rest : List (List u8)) (before after : List Nat) (p : Nat) (e : List u8 × Certificate)
    (hdata : c.GetIVFCLevel4Data = some (data0 :: rest))
    (hcalls : (Load D s c).calls = before ++ p :: after)
    (hp : recordAt D data0 p = some e)
    (hfirst : ∀ q ∈ before, ∀ e', recordAt D data0 q = some e' → e'.1 ≠ e.1) :
    Get (Load D s c).state e.1 = some e.2 ∧
      ∀ (total fuel pos : Nat) (g : Registry) (calls : List Nat),
        (loop D data0 total fuel pos g calls).exit
          = (loop D data0 total fuel pos [] calls).exit := by
  refine ⟨?_, fun total fuel pos g calls => loop_exit_indep D data0 total fuel pos g [] calls
    calls⟩
  unfold Get
  rw [Load_registry D s c data0 rest hdata, hcalls]
  have hnone : (recordsAt D data0 before).find? (fun x => decide (x.1 = e.1)) = none := by
    rw [List.find?_eq_none]
    intro x hx
    obtain ⟨q, hq, hqx⟩ := List.mem_filterMap.mp hx
    simpa using hfirst q hq x hqx
  have hsplit : recordsAt D data0 (before ++ p :: after)
      = recordsAt D data0 before ++ e :: recordsAt D data0 after := by
    unfold recordsAt
    rw [List.filterMap_append, List.filterMap_cons, hp]
  rw [hsplit, List.find?_append, hnone]
  simp

/-- C5 amended, at the database with two records named `A`: the first one is kept. -/
theorem C5_first_write_wins_witness :
    Get (Load (ctr []) State.init
      (sampleDatabase (sampleRecord [65] 7 ++ sampleRecord [65] 8))).state [65]
      = some (sampleCert [65] 7) :=
  (C5_first_write_wins (ctr []) State.init
    (sampleDatabase (sampleRecord [65] 7 ++ sampleRecord [65] 8))
    (sampleHeader 0x280 ++ (sampleRecord [65] 7 ++ sampleRecord [65] 8)) [] [] [336] 16
    ([65], sampleCert [65] 7) (by decide!) (by decide!) (by decide!)
    (fun q hq => absurd hq (List.not_mem_nil q))).1

/-- C6, as stated, fails: with `B` required and a database that holds only the certificate `A`,
the record loop completes, `Certs::Load` returns false because `B` is absent, and `Get("A")`
does not fail: it returns the certificate `A`. -/
theorem C6_get_after_failed_load_counterexample :
    (Load (ctr [[66]]) State.init (sampleDatabase (sampleRecord [65] 7))).ret
      = Ret.value false ∧
    (Load (ctr [[66]]) State.init (sampleDatabase (sampleRecord [65] 7))).calls = [16] ∧
    (loop (ctr [[66]]) (sampleHeader 0x140 ++ sampleRecord [65] 7) 0x150 0x150 0x10 [] []).exit
      = LoopExit.completed ∧
    count (Load (ctr [[66]]) State.init (sampleDatabase (sampleRecord [65] 7))).state.g_certs
      [66] = 0 ∧
    Get (Load (ctr [[66]]) State.init (sampleDatabase (sampleRecord [65] 7))).state [65]
      = some (sampleCert [65] 7) ∧
    ¬ ∀ name, Get (Load (ctr [[66]]) State.init
      (sampleDatabase (sampleRecord [65] 7))).state name = none := by
  refine ⟨by decide!, by decide!, by decide!, by decide!, by decide!, fun h => ?_⟩
  exact absurd (h [65]) (by decide!)

/-- C6, amended.  After a `Certs::Load` on a block with a valid header and declared size whose
record loop completes and whose registry lacks the required name `n`, the call returns false,
`Get(n)` fails, `Get` fails for exactly the names that no decoded record carries, and `Get`
returns a certificate for the name of every record that was decoded. -/
theorem C6_get_after_missing_required (D : Decls) (s : State) (c : DataContainer)
    (data0 header : List u8) (rest : List (List u8)) (total_size : Nat) (n : List u8)
    (hgood : c.IsGood = true) (hdata : c.GetIVFCLevel4Data = some (data0 :: rest))
    (hhdr : TRY_MEMCPY D data0 = some header) (hmagic : D.header_magic header = D.magicCERT)
    (htot : total_size = (D.header_size header + D.sizeofHeader) % SIZE_T)
    (hsize : total_size ≤ data0.length)
    (hexit : (loop D data0 total_size total_size D.sizeofHeader [] []).exit
      = LoopExit.completed)
    (hn : n ∈ D.CIACertNames)
    (hmiss : ∀ cert, (n, cert) ∉ (loop D data0 total_size total_size D.sizeofHeader [] []).g_certs) :
    (Load D s c).ret = Ret.value false ∧
      Get (Load D s c).state n = none ∧
      (∀ name, Get (Load D s c).state name = none ↔
        ∀ pos ∈ (Load D s c).calls,
          D.name (Certificate.Load D (Certificate.fresh D) data0 pos).self.body ≠ name) ∧
      (∀ pos ∈ (Load D s c).calls, ∃ cert,
        Get (Load D s c).state
          (D.name (Certificate.Load D (Certificate.fresh D) data0 pos).self.body)
          = some cert) := by
  have hcount : count (loop D data0 total_size total_size D.sizeofHeader [] []).g_certs n = 0 :=
    (count_eq_zero_iff _ _).mpr ((lookup_eq_none_iff _ _).mpr hmiss)
  have hall : ¬ (D.CIACertNames.all (fun cert =>
      count (loop D data0 total_size total_size D.sizeofHeader [] []).g_certs cert ≠ 0)
      = true) := by
    intro h
    have := List.all_eq_true.mp h n hn
    simp [hcount] at this
  have hL := Load_checked D s c data0 header rest total_size hgood hdata hhdr hmagic htot hsize
  rw [hexit] at hL
  simp only [] at hL
  rw [if_neg hall] at hL
  obtain ⟨new, h1, _, h3⟩ := loop_spec D data0 total_size total_size D.sizeofHeader [] []
  rw [List.nil_append] at h1
  have hrec : ∀ pos ∈ (Load D s c).calls, recordAt D data0 pos
      = some (D.name (Certificate.Load D (Certificate.fresh D) data0 pos).self.body,
          (Certificate.Load D (Certificate.fresh D) data0 pos).self) := by
    intro pos hpos
    rw [hL] at hpos
    obtain ⟨e, he⟩ := h3 hexit pos (h1 ▸ hpos)
    rw [he, recordAt_some D data0 pos e he]
  have hnone : ∀ name, Get (Load D s c).state name = none ↔
      ∀ pos ∈ (Load D s c).calls,
        D.name (Certificate.Load D (Certificate.fresh D) data0 pos).self.body ≠ name := by
    intro name
    unfold Get
    rw [Load_registry D s c data0 rest hdata, Option.map_eq_none', List.find?_eq_none]
    constructor
    · intro h pos hpos
      have := h _ (List.mem_filterMap.mpr ⟨pos, hpos, hrec pos hpos⟩)
      simpa using this
    · intro h x hx
      obtain ⟨q, hq, hqx⟩ := List.mem_filterMap.mp hx
      have := recordAt_some D data0 q x hqx
      rw [this]
      simpa using h q hq
  refine ⟨by rw [hL], ?_, hnone, ?_⟩
  · rw [hL]
    exact (lookup_eq_none_iff _ _).mpr hmiss
  · intro pos hpos
    cases hg : Get (Load D s c).state
        (D.name (Certificate.Load D (Certificate.fresh D) data0 pos).self.body) with
    | some cert => exact ⟨cert, rfl⟩
    | none => exact absurd rfl ((hnone _).mp hg pos hpos)

/-- C6 amended, with `B` required and a database that holds only the certificate `A`. -/
theorem C6_get_after_missing_required_witness :
    (Load (ctr [[66]]) State.init (sampleDatabase (sampleRecord [65] 7))).ret
      = Ret.value false ∧
    Get (Load (ctr [[66]]) State.init (sampleDatabase (sampleRecord [65] 7))).state [66]
      = none :=
  have h := C6_get_after_missing_required (ctr [[66]]) State.init
    (sampleDatabase (sampleRecord [65] 7)) (sampleHeader 0x140 ++ sampleRecord [65] 7)
    (sampleHeader 0x140) [] 0x150 [66] (by decide!) (by decide!) (by decide!) (by decide!)
    (by decide!) (by decide!) (by decide!) (by decide!)
    ((lookup_eq_none_iff _ _).mp (by decide!))
  ⟨h.1, h.2.1⟩

/-- C7.  Required-set validation: on a data block with a valid header and declared size whose
record loop completes, `Certs::Load` returns true exactly when every name of `CIACertNames` is
a key of the registry built from the records, and false otherwise; when it returns true,
`IsLoaded()` is true and `Get` succeeds for every required name. -/
theorem C7_required_set (D : Decls) (s : State) (c : DataContainer)
    (data0 header : List u8) (rest : List (List u8)) (total_size : Nat)
    (hgood : c.IsGood = true) (hdata : c.GetIVFCLevel4Data = some (data0 :: rest))
    (hhdr : TRY_MEMCPY D data0 = some header) (hmagic : D.header_magic header = D.magicCERT)
    (htot : total_size = (D.header_size header + D.sizeofHeader) % SIZE_T)
    (hsize : total_size ≤ data0.length)
    (hexit : (loop D data0 total_size total_size D.sizeofHeader [] []).exit
      = LoopExit.completed) :
    ((Load D s c).ret = Ret.value true ↔
      ∀ n ∈ D.CIACertNames, ∃ cert,
        (n, cert) ∈ (loop D data0 total_size total_size D.sizeofHeader [] []).g_certs) ∧
    ((Load D s c).ret = Ret.value false ↔
      ¬ ∀ n ∈ D.CIACertNames, ∃ cert,
        (n, cert) ∈ (loop D data0 total_size total_size D.sizeofHeader [] []).g_certs) ∧
    ((Load D s c).ret = Ret.value true →
      IsLoaded (Load D s c).state = true ∧
      ∀ n ∈ D.CIACertNames, ∃ cert, Get (Load D s c).state n = some cert) := by
  have hkey : ∀ n, count (loop D data0 total_size total_size D.sizeofHeader [] []).g_certs n ≠ 0
      ↔ ∃ cert, (n, cert) ∈ (loop D data0 total_size total_size D.sizeofHeader [] []).g_certs := by
    intro n
    rw [ne_eq, count_eq_zero_iff, lookup_eq_none_iff]
    push_neg
    rfl
  have hallIff : (D.CIACertNames.all (fun cert =>
      count (loop D data0 total_size total_size D.sizeofHeader [] []).g_certs cert ≠ 0) = true)
      ↔ ∀ n ∈ D.CIACertNames, ∃ cert,
        (n, cert) ∈ (loop D data0 total_size total_size D.sizeofHeader [] []).g_certs := by
    rw [List.all_eq_true]
    constructor
    · intro h n hn
      exact (hkey n).mp (by simpa using h n hn)
    · intro h n hn
      simpa using (hkey n).mpr (h n hn)
  have hL := Load_checked D s c data0 header rest total_size hgood hdata hhdr hmagic htot hsize
  rw [hexit] at hL
  simp only [] at hL
  by_cases hall : D.CIACertNames.all (fun cert =>
      count (loop D data0 total_size total_size D.sizeofHeader [] []).g_certs cert ≠ 0) = true
  · rw [if_pos hall] at hL
    have hP := hallIff.mp hall
    rw [hL]
    refine ⟨⟨fun _ => hP, fun _ => rfl⟩, ⟨fun h => by simp at h, fun h => absurd hP h⟩, ?_⟩
    intro _
    refine ⟨rfl, ?_⟩
    intro n hn
    unfold Get
    cases hl : lookup (loop D data0 total_size total_size D.sizeofHeader [] []).g_certs n with
    | some cert => exact ⟨cert, rfl⟩
    | none =>
      obtain ⟨cert, hc⟩ := hP n hn
      exact absurd hc ((lookup_eq_none_iff _ _).mp hl cert)
  · rw [if_neg hall] at hL
    have hP : ¬ ∀ n ∈ D.CIACertNames, ∃ cert,
        (n, cert) ∈ (loop D data0 total_size total_size D.sizeofHeader [] []).g_certs :=
      fun h => hall (hallIff.mpr h)
    rw [hL]
    refine ⟨⟨fun h => by simp at h, fun h => absurd h hP⟩, ⟨fun _ => hP, fun _ => rfl⟩, ?_⟩
    intro h
    simp at h

/-- C7, with `A` required and a database that holds the certificate `A`. -/
theorem C7_required_set_witness :
    IsLoaded (Load (ctr [[65]]) State.init (sampleDatabase (sampleRecord [65] 7))).state
      = true :=
  ((C7_required_set (ctr [[65]]) State.init
    (sampleDatabase (sampleRecord [65] 7)) (sampleHeader 0x140 ++ sampleRecord [65] 7)
    (sampleHeader 0x140) [] 0x150 (by decide!) (by decide!) (by decide!) (by decide!)
    (by decide!) (by decide!) (by decide!)).2.2 (by decide!)).1

/-- C12.  Bad magic: when the header of the data block does not carry the magic
`MakeMagic('C', 'E', 'R', 'T')`, `Certs::Load` returns false, decodes no record, and the
registry is empty afterwards. -/
theorem C12_bad_magic (D : Decls) (s : State) (c : DataContainer) (data0 header : List u8)
    (rest : List (List u8)) (hdata : c.GetIVFCLevel4Data = some (data0 :: rest))
    (hhdr : TRY_MEMCPY D data0 = some header) (hmagic : D.header_magic header ≠ D.magicCERT) :
    (Load D s c).ret = Ret.value false ∧ (Load D s c).calls = [] ∧
      (Load D s c).state.g_certs = [] := by
  by_cases hgood : c.IsGood = true
  · simp [Load, hgood, hdata, hhdr, hmagic]
  · simp [Load, hgood]

/-- C12, at a database whose magic bytes are `C`, `E`, `R`, `S`, after an earlier successful
load. -/
theorem C12_bad_magic_witness :
    (Load (ctr []) (Load (ctr []) State.init (sampleDatabase (sampleRecord [65] 7))).state
      { IsGood := true,
        GetIVFCLevel4Data := some [[0x43, 0x45, 0x52, 0x53, 0, 0, 0, 0, 0x40, 1, 0, 0, 0, 0, 0, 0]
          ++ sampleRecord [65] 7] }).state.g_certs = [] :=
  (C12_bad_magic (ctr []) (Load (ctr []) State.init (sampleDatabase (sampleRecord [65] 7))).state
    { IsGood := true,
      GetIVFCLevel4Data := some [[0x43, 0x45, 0x52, 0x53, 0, 0, 0, 0, 0x40, 1, 0, 0, 0, 0, 0, 0]
        ++ sampleRecord [65] 7] }
    ([0x43, 0x45, 0x52, 0x53, 0, 0, 0, 0, 0x40, 1, 0, 0, 0, 0, 0, 0] ++ sampleRecord [65] 7)
    [0x43, 0x45, 0x52, 0x53, 0, 0, 0, 0, 0x40, 1, 0, 0, 0, 0, 0, 0] [] rfl (by decide!)
    (by decide!)).2.2

/-- C13.  Corrupt declared size: when the magic is right and the data block is shorter than
`header.size + sizeof(header)`, a sum that does not wrap around for any 32-bit `header.size`,
`Certs::Load` returns false and decodes no record. -/
theorem C13_corrupt_size (D : Decls) (hD : D.Sane) (s : State) (c : DataContainer)
    (data0 header : List u8) (rest : List (List u8))
    (hdata : c.GetIVFCLevel4Data = some (data0 :: rest))
    (hhdr : TRY_MEMCPY D data0 = some header) (hmagic : D.header_magic header = D.magicCERT)
    (hshort : data0.length < D.header_size header + D.sizeofHeader) :
    (Load D s c).ret = Ret.value false ∧ (Load D s c).calls = [] ∧
      (D.header_size header + D.sizeofHeader) % SIZE_T
        = D.header_size header + D.sizeofHeader := by
  have h1 := hD.size_lt header
  have h2 := hD.header_lt
  have hmod : (D.header_size header + D.sizeofHeader) % SIZE_T
      = D.header_size header + D.sizeofHeader := by
    unfold SIZE_T; omega
  refine ⟨?_, ?_, hmod⟩
  · by_cases hgood : c.IsGood = true
    · simp [Load, hgood, hdata, hhdr, hmagic, hmod, hshort]
    · simp [Load, hgood]
  · by_cases hgood : c.IsGood = true
    · simp [Load, hgood, hdata, hhdr, hmagic, hmod, hshort]
    · simp [Load, hgood]

/-- C13, at a database whose header declares 0x140 bytes and that holds 100. -/
theorem C13_corrupt_size_witness :
    (Load (ctr []) State.init
      { IsGood := true,
        GetIVFCLevel4Data := some [sampleHeader 0x140 ++ List.take 100 (sampleRecord [65] 7)] }).ret
      = Ret.value false :=
  (C13_corrupt_size (ctr []) (ctr_sane []) State.init
    { IsGood := true,
      GetIVFCLevel4Data := some [sampleHeader 0x140 ++ List.take 100 (sampleRecord [65] 7)] }
    (sampleHeader 0x140 ++ List.take 100 (sampleRecord [65] 7)) (sampleHeader 0x140) [] rfl
    (by decide!) (by decide!) (by decide!)).1

/-- What `Certs::Load` returns, which positions it decodes and which registry it leaves do not
depend on the statics before the call. -/
theorem Load_indep (D : Decls) (s s' : State) (c : DataContainer) :
    (Load D s c).ret = (Load D s' c).ret ∧ (Load D s c).calls = (Load D s' c).calls ∧
      (Load D s c).state.g_certs = (Load D s' c).state.g_certs := by
  unfold Load
  simp only []
  repeat' split
  all_goals exact ⟨rfl, rfl, rfl⟩

/-- A call of `Certs::Load` that returns true leaves `g_is_loaded` true. -/
theorem Load_true_flag (D : Decls) (s : State) (c : DataContainer)
    (h : (Load D s c).ret = Ret.value true) : (Load D s c).state.g_is_loaded = true := by
  by_cases hgood : c.IsGood = true
  · cases hdata : c.GetIVFCLevel4Data with
    | none => simp [Load, hgood, hdata] at h
    | some data =>
      cases data with
      | nil => simp [Load, hgood, hdata] at h
      | cons data0 rest =>
        cases hhdr : TRY_MEMCPY D data0 with
        | none => simp [Load, hgood, hdata, hhdr] at h
        | some header =>
          by_cases hmagic : D.header_magic header = D.magicCERT
          · by_cases hsize : (D.header_size header + D.sizeofHeader) % SIZE_T ≤ data0.length
            · rw [Load_checked D s c data0 header rest _ hgood hdata hhdr hmagic rfl hsize]
                at h ⊢
              cases hx : (loop D data0 ((D.header_size header + D.sizeofHeader) % SIZE_T)
                  ((D.header_size header + D.sizeofHeader) % SIZE_T) D.sizeofHeader [] []).exit
              · rw [hx] at h
                simp only [] at h ⊢
                split_ifs with hall
                · rfl
                · rw [if_neg hall] at h
                  simp at h
              · rw [hx] at h; simp at h
              · rw [hx] at h; simp at h
              · rw [hx] at h; simp at h
            · have hsz : data0.length < (D.header_size header + D.sizeofHeader) % SIZE_T := by
                omega
              simp [Load, hgood, hdata, hhdr, hmagic, hsz] at h
          · simp [Load, hgood, hdata, hhdr, hmagic] at h
  · simp [Load, hgood] at h

/-- C15.  Load idempotence: when `Certs::Load` returns true on a database, a second call on the
same database gives the same result and the same statics (registry and loaded flag) as the
first, and so does a call from any other prior state. -/
theorem C15_load_idempotent (D : Decls) (s : State) (c : DataContainer)
    (hret : (Load D s c).ret = Ret.value true) :
    Load D (Load D s c).state c = Load D s c ∧ ∀ s', Load D s' c = Load D s c := by
  have key : ∀ s', Load D s' c = Load D s c := by
    intro s'
    obtain ⟨h1, h2, h3⟩ := Load_indep D s' s c
    have hf := Load_true_flag D s c hret
    have hf' := Load_true_flag D s' c (h1.trans hret)
    cases hA : Load D s' c with
    | mk r st cl =>
      cases hB : Load D s c with
      | mk r2 st2 cl2 =>
        rw [hA, hB] at h1 h2 h3
        rw [hA] at hf'
        rw [hB] at hf
        cases st; cases st2
        simp only [] at h1 h2 h3 hf hf'
        subst h1 h2 h3 hf hf'
        rfl
  exact ⟨key _, key⟩

/-- C15, at the database that holds the certificate `A`, which is required. -/
theorem C15_load_idempotent_witness :
    Load (ctr [[65]])
      (Load (ctr [[65]]) State.init (sampleDatabase (sampleRecord [65] 7))).state
      (sampleDatabase (sampleRecord [65] 7))
      = Load (ctr [[65]]) State.init (sampleDatabase (sampleRecord [65] 7)) :=
  (C15_load_idempotent (ctr [[65]]) State.init (sampleDatabase (sampleRecord [65] 7))
    (by decide!)).1

end Certs

/-- C16.  Public-key size table: `GetPublicKeySize` gives 0x238 for `RSA_4096`, 0x138 for
`RSA_2048` and 0x78 for `ECC`; for every other code it gives the value 0, which no known code
has, so that the result 0 is returned exactly for the unknown codes. -/
theorem C16_public_key_size_table (D : Decls) (h1 : D.RSA_2048 ≠ D.RSA_4096)
    (h2 : D.ECC ≠ D.RSA_4096) (h3 : D.ECC ≠ D.RSA_2048) :
    GetPublicKeySize D D.RSA_4096 = 0x238 ∧ GetPublicKeySize D D.RSA_2048 = 0x138 ∧
      GetPublicKeySize D D.ECC = 0x78 ∧
      (∀ t, t ≠ D.RSA_4096 → t ≠ D.RSA_2048 → t ≠ D.ECC → GetPublicKeySize D t = 0) ∧
      (∀ t, GetPublicKeySize D t = 0 ↔ t ≠ D.RSA_4096 ∧ t ≠ D.RSA_2048 ∧ t ≠ D.ECC) := by
  refine ⟨by simp [GetPublicKeySize], by simp [GetPublicKeySize, h1],
    by simp [GetPublicKeySize, h2, h3], ?_, ?_⟩
  · intro t a b c
    simp [GetPublicKeySize, a, b, c]
  · intro t
    unfold GetPublicKeySize
    split_ifs <;> simp_all

/-- C16, with the key-type codes 0, 1, 2 of the 3DS layout. -/
theorem C16_public_key_size_table_witness :
    GetPublicKeySize (ctr []) (ctr []).RSA_4096 = 0x238 ∧
      GetPublicKeySize (ctr []) (ctr []).RSA_2048 = 0x138 ∧
      GetPublicKeySize (ctr []) (ctr []).ECC = 0x78 :=
  have h := C16_public_key_size_table (ctr []) (by decide) (by decide) (by decide)
  ⟨h.1, h.2.1, h.2.2.1⟩

namespace Certs

/-! ## The record loop: where it stops and how far it runs -/

/-- The record loop decodes nothing after a position at which `cert.Load` returns 0: such a
position is the last one visited, and the loop ends as failed. -/
theorem loop_stops_at_failure (D : Decls) (data0 : List u8) (total : Nat) :
    ∀ (fuel pos : Nat) (g : Registry) (calls : List Nat),
      ∃ new, (loop D data0 total fuel pos g calls).calls = calls ++ new ∧
        ∀ before p after, new = before ++ p :: after →
          (Certificate.Load D (Certificate.fresh D) data0 p).ret = some 0 →
          after = [] ∧ (loop D data0 total fuel pos g calls).exit = LoopExit.failed := by
  intro fuel
  induction fuel with
  | zero =>
    intro pos g calls
    refine ⟨[], ?_, ?_⟩
    · simp only [loop]; split_ifs <;> simp
    · intro before p after h
      simp at h
  | succ fuel ih =>
    intro pos g calls
    by_cases hpos : pos < total
    · cases hr : (Certificate.Load D (Certificate.fresh D) data0 pos).ret with
      | none =>
        refine ⟨[pos], by simp [loop, hpos, hr], ?_⟩
        intro before p after h hp
        cases before with
        | nil =>
          simp only [List.nil_append, List.cons.injEq] at h
          rw [← h.1, hr] at hp
          simp at hp
        | cons b bs =>
          simp at h
      | some size =>
        by_cases hz : size = 0
        · refine ⟨[pos], by simp [loop, hpos, hr, hz], ?_⟩
          intro before p after h _
          cases before with
          | nil =>
            simp only [List.nil_append, List.cons.injEq] at h
            exact ⟨h.2.symm, by simp [loop, hpos, hr, hz]⟩
          | cons b bs =>
            simp at h
        · obtain ⟨new, h1, h2⟩ := ih ((pos + size) % SIZE_T)
            (emplace g (D.name (Certificate.Load D (Certificate.fresh D) data0 pos).self.body)
              (Certificate.Load D (Certificate.fresh D) data0 pos).self) (calls ++ [pos])
          refine ⟨pos :: new, ?_, ?_⟩
          · simp only [loop, hpos, if_true, hr, hz, if_false]
            rw [h1]; simp
          · intro before p after h hp
            simp only [loop, hpos, if_true, hr, hz, if_false]
            cases before with
            | nil =>
              simp only [List.nil_append, List.cons.injEq] at h
              rw [← h.1, hr] at hp
              simp only [Option.some.injEq] at hp
              exact absurd hp hz
            | cons b bs =>
              simp only [List.cons_append, List.cons.injEq] at h
              exact h2 bs p after h.2 hp
    · refine ⟨[], by simp [loop, hpos], ?_⟩
      intro before p after h
      simp at h

/-- Every pass of the record loop that continues moves `pos` forward: the positions visited
from `pos` on lie in `[pos, total)`, increase strictly, and are at most `total - pos` many. -/
theorem loop_progress (D : Decls) (hD : D.Sane) (data0 : List u8) (total : Nat)
    (hlen : data0.length < 2 ^ 64) (htot : total < 2 ^ 64) :
    ∀ (fuel pos : Nat) (g : Registry) (calls : List Nat),
      ∃ new, (loop D data0 total fuel pos g calls).calls = calls ++ new ∧
        new.length ≤ total - pos ∧ (∀ p ∈ new, pos ≤ p ∧ p < total) ∧
        new.Pairwise (fun a b => a < b) := by
  intro fuel
  induction fuel with
  | zero =>
    intro pos g calls
    refine ⟨[], ?_, by simp, by simp, by simp⟩
    simp only [loop]; split_ifs <;> simp
  | succ fuel ih =>
    intro pos g calls
    by_cases hpos : pos < total
    · cases hr : (Certificate.Load D (Certificate.fresh D) data0 pos).ret with
      | none =>
        refine ⟨[pos], by simp [loop, hpos, hr], ?_, ?_, by simp⟩
        · simp; omega
        · simp [hpos]
      | some size =>
        by_cases hz : size = 0
        · refine ⟨[pos], by simp [loop, hpos, hr, hz], ?_, ?_, by simp⟩
          · simp; omega
          · simp [hpos]
        · obtain ⟨_, _, hfit, hsz, _⟩ := Load_success D hD (Certificate.fresh D) data0 pos size
            hlen (by omega) _ _ _ _ rfl rfl rfl rfl hr hz
          have hstep : (pos + size) % SIZE_T = pos + size := by unfold SIZE_T; omega
          obtain ⟨new, h1, h2, h3, h4⟩ := ih ((pos + size) % SIZE_T)
            (emplace g (D.name (Certificate.Load D (Certificate.fresh D) data0 pos).self.body)
              (Certificate.Load D (Certificate.fresh D) data0 pos).self) (calls ++ [pos])
          rw [hstep] at h2 h3
          refine ⟨pos :: new, ?_, ?_, ?_, ?_⟩
          · simp only [loop, hpos, if_true, hr, hz, if_false]
            rw [h1]; simp
          · simp only [List.length_cons]; omega
          · intro p hp
            rcases List.mem_cons.mp hp with rfl | hp
            · exact ⟨Nat.le_refl _, hpos⟩
            · have := h3 p hp
              omega
          · rw [List.pairwise_cons]
            refine ⟨?_, h4⟩
            intro p hp
            have := h3 p hp
            omega
    · exact ⟨[], by simp [loop, hpos], by simp, by simp, by simp⟩

/-- C11.  Malformed record aborts the whole load: on a data block with valid magic and declared
size, if `cert.Load` returns 0 at a position `p` that the record loop reaches, after any
number of records decoded at the positions `before`, then `Certs::Load` returns false and `p`
is the last position at which a record is decoded. -/
theorem C11_malformed_record_aborts (D : Decls) (s : State) (c : DataContainer)
    (data0 header : List u8) (rest : List (List u8)) (total_size p : Nat)
    (before after : List Nat)
    (hgood : c.IsGood = true) (hdata : c.GetIVFCLevel4Data = some (data0 :: rest))
    (hhdr : TRY_MEMCPY D data0 = some header) (hmagic : D.header_magic header = D.magicCERT)
    (htot : total_size = (D.header_size header + D.sizeofHeader) % SIZE_T)
    (hsize : total_size ≤ data0.length)
    (hcalls : (Load D s c).calls = before ++ p :: after)
    (hfail : (Certificate.Load D (Certificate.fresh D) data0 p).ret = some 0) :
    (Load D s c).ret = Ret.value false ∧ after = [] ∧
      (Load D s c).calls = before ++ [p] := by
  obtain ⟨new, h1, h2⟩ :=
    loop_stops_at_failure D data0 total_size total_size D.sizeofHeader [] []
  rw [List.nil_append] at h1
  have hL := Load_checked D s c data0 header rest total_size hgood hdata hhdr hmagic htot hsize
  have hc : (Load D s c).calls
      = (loop D data0 total_size total_size D.sizeofHeader [] []).calls := by
    rw [hL]
    cases (loop D data0 total_size total_size D.sizeofHeader [] []).exit
    · simp only []
      split_ifs <;> rfl
    · rfl
    · rfl
    · rfl
  obtain ⟨hafter, hexit⟩ := h2 before p after (by rw [← h1, ← hc, hcalls]) hfail
  refine ⟨?_, hafter, by rw [hcalls, hafter]⟩
  rw [hL, hexit]

/-- C11, at a database whose second record carries the unknown type code 0x00010009. -/
theorem C11_malformed_record_aborts_witness :
    (Load (ctr []) State.init
      (sampleDatabase (sampleRecord [65] 7 ++ ([0, 1, 0, 9] ++ List.replicate 60 7)))).ret
      = Ret.value false :=
  (C11_malformed_record_aborts (ctr []) State.init
    (sampleDatabase (sampleRecord [65] 7 ++ ([0, 1, 0, 9] ++ List.replicate 60 7)))
    (sampleHeader 0x180 ++ (sampleRecord [65] 7 ++ ([0, 1, 0, 9] ++ List.replicate 60 7)))
    (sampleHeader 0x180) [] 0x190 336 [16] [] (by decide!) (by decide!) (by decide!)
    (by decide!) (by decide!) (by decide!) (by decide!) (by decide!)).1

/-- On a block that passes the header checks, the positions that `Certs::Load` reports are those
of the record loop. -/
theorem Load_calls (D : Decls) (s : State) (c : DataContainer) (data0 header : List u8)
    (rest : List (List u8)) (total_size : Nat)
    (hgood : c.IsGood = true) (hdata : c.GetIVFCLevel4Data = some (data0 :: rest))
    (hhdr : TRY_MEMCPY D data0 = some header) (hmagic : D.header_magic header = D.magicCERT)
    (htot : total_size = (D.header_size header + D.sizeofHeader) % SIZE_T)
    (hsize : total_size ≤ data0.length) :
    (Load D s c).calls = (loop D data0 total_size total_size D.sizeofHeader [] []).calls := by
  rw [Load_checked D s c data0 header rest total_size hgood hdata hhdr hmagic htot hsize]
  cases (loop D data0 total_size total_size D.sizeofHeader [] []).exit
  · simp only []
    split_ifs <;> rfl
  · rfl
  · rfl
  · rfl

/-- On a block that fails a header check, or without a block, `Certs::Load` decodes nothing. -/
theorem Load_calls_nil (D : Decls) (s : State) (c : DataContainer)
    (h : c.IsGood = false ∨ c.GetIVFCLevel4Data = none ∨ c.GetIVFCLevel4Data = some [] ∨
      ∃ data0 rest, c.GetIVFCLevel4Data = some (data0 :: rest) ∧
        (TRY_MEMCPY D data0 = none ∨ ∃ header, TRY_MEMCPY D data0 = some header ∧
          (D.header_magic header ≠ D.magicCERT ∨
            data0.length < (D.header_size header + D.sizeofHeader) % SIZE_T))) :
    (Load D s c).calls = [] := by
  by_cases hgood : c.IsGood = true
  · rcases h with h | h | h | ⟨data0, rest, hdata, h⟩
    · rw [hgood] at h; simp at h
    · simp [Load, hgood, h]
    · simp [Load, hgood, h]
    · rcases h with h | ⟨header, hhdr, h⟩
      · simp [Load, hgood, hdata, h]
      · by_cases hmagic : D.header_magic header = D.magicCERT
        · rcases h with h | h
          · exact absurd hmagic h
          · simp [Load, hgood, hdata, hhdr, hmagic, h]
        · simp [Load, hgood, hdata, hhdr, hmagic]
  · simp [Load, hgood]

/-- C20.  The record loop terminates: a call of `cert.Load` that returns a non-zero size `n` at
`pos` moves the position to `pos + n > pos` without wrap-around; the positions that
`Certs::Load` visits increase strictly, there are at most `total_size - sizeof(header)` of
them, and the call ends within that many passes of the loop. -/
theorem C20_loop_terminates (D : Decls) (hD : D.Sane) (s : State) (c : DataContainer)
    (data0 header : List u8) (rest : List (List u8)) (total_size : Nat)
    (hlen : data0.length < 2 ^ 64)
    (hdata : c.GetIVFCLevel4Data = some (data0 :: rest))
    (hhdr : TRY_MEMCPY D data0 = some header)
    (htot : total_size = (D.header_size header + D.sizeofHeader) % SIZE_T) :
    (∀ pos n, pos < 2 ^ 64 →
      (Certificate.Load D (Certificate.fresh D) data0 pos).ret = some n → n ≠ 0 →
      0 < n ∧ (pos + n) % SIZE_T = pos + n ∧ pos < pos + n) ∧
    (Load D s c).ret ≠ Ret.unfinished ∧
    (Load D s c).calls.length ≤ total_size - D.sizeofHeader ∧
    (Load D s c).calls.Pairwise (fun a b => a < b) ∧
    (∀ fuel, total_size - D.sizeofHeader ≤ fuel →
      (loop D data0 total_size fuel D.sizeofHeader [] []).exit ≠ LoopExit.unfinished) := by
  have htot64 : total_size < 2 ^ 64 := by
    rw [htot]; exact Nat.mod_lt _ (by unfold SIZE_T; norm_num)
  refine ⟨?_, ?_, ?_, ?_, ?_⟩
  · intro pos n hpos hn hn0
    obtain ⟨_, _, hfit, hsz, _⟩ := Load_success D hD (Certificate.fresh D) data0 pos n
      hlen hpos _ _ _ _ rfl rfl rfl rfl hn hn0
    refine ⟨by omega, ?_, by omega⟩
    unfold SIZE_T; omega
  · apply Load_ret_ne_unfinished D hD s c
    intro d r hd
    rw [hdata] at hd
    simp only [Option.some.injEq, List.cons.injEq] at hd
    rw [← hd.1]; exact hlen
  · by_cases hok : c.IsGood = true ∧ D.header_magic header = D.magicCERT ∧
        total_size ≤ data0.length
    · obtain ⟨hgood, hmagic, hsize⟩ := hok
      rw [Load_calls D s c data0 header rest total_size hgood hdata hhdr hmagic htot hsize]
      obtain ⟨new, h1, h2, _, _⟩ :=
        loop_progress D hD data0 total_size hlen htot64 total_size D.sizeofHeader [] []
      rw [List.nil_append] at h1
      rw [h1]; exact h2
    · have : (Load D s c).calls = [] := by
        apply Load_calls_nil
        by_cases hgood : c.IsGood = true
        · refine Or.inr (Or.inr (Or.inr ⟨data0, rest, hdata, Or.inr ⟨header, hhdr, ?_⟩⟩))
          by_cases hmagic : D.header_magic header = D.magicCERT
          · right
            rw [← htot]
            by_contra hcon
            exact hok ⟨hgood, hmagic, by omega⟩
          · exact Or.inl hmagic
        · exact Or.inl (by simpa using hgood)
      rw [this]; simp
  · by_cases hok : c.IsGood = true ∧ D.header_magic header = D.magicCERT ∧
        total_size ≤ data0.length
    · obtain ⟨hgood, hmagic, hsize⟩ := hok
      rw [Load_calls D s c data0 header rest total_size hgood hdata hhdr hmagic htot hsize]
      obtain ⟨new, h1, _, _, h4⟩ :=
        loop_progress D hD data0 total_size hlen htot64 total_size D.sizeofHeader [] []
      rw [List.nil_append] at h1
      rw [h1]; exact h4
    · have : (Load D s c).calls = [] := by
        apply Load_calls_nil
        by_cases hgood : c.IsGood = true
        · refine Or.inr (Or.inr (Or.inr ⟨data0, rest, hdata, Or.inr ⟨header, hhdr, ?_⟩⟩))
          by_cases hmagic : D.header_magic header = D.magicCERT
          · right
            rw [← htot]
            by_contra hcon
            exact hok ⟨hgood, hmagic, by omega⟩
          · exact Or.inl hmagic
        · exact Or.inl (by simpa using hgood)
      rw [this]; simp
  · intro fuel hfuel
    exact loop_exit_ne_unfinished D hD data0 total_size hlen htot64 fuel D.sizeofHeader [] []
      hfuel

/-- C20, at a database with two records: two passes, far fewer than the 640 payload bytes. -/
theorem C20_loop_terminates_witness :
    (Load (ctr []) State.init
      (sampleDatabase (sampleRecord [65] 7 ++ sampleRecord [66] 8))).calls.length
      ≤ 0x290 - (ctr []).sizeofHeader :=
  (C20_loop_terminates (ctr []) (ctr_sane []) State.init
    (sampleDatabase (sampleRecord [65] 7 ++ sampleRecord [66] 8))
    (sampleHeader 0x280 ++ (sampleRecord [65] 7 ++ sampleRecord [66] 8))
    (sampleHeader 0x280) [] 0x290 (by decide!) (by decide!) (by decide!) (by decide!)).2.2.1

end Certs

/-! ## Alignment and the steps of `Save` -/

/-- Reading a range that lies inside the middle piece of a vector. -/
theorem slice_shift (pre x post : List u8) (i l : Nat) (h : i + l ≤ x.length) :
    slice (pre ++ x ++ post) (pre.length + i) l = slice x i l := by
  unfold slice
  rw [List.append_assoc, List.drop_append, List.drop_append_of_le_length (by omega),
    List.take_append_of_le_length (by simp; omega)]

/-- The bytes that `Certificate::Save` writes for a valid certificate. -/
theorem encode_eq (D : Decls) (hD : D.Sane) (c : Certificate) (hc : c.Valid D) :
    c.encode D = c.signature_type ++ c.signature
      ++ List.replicate (AlignUp (c.signature.length + 4) 0x40 - (c.signature.length + 4)) 0
      ++ c.body ++ c.public_key := by
  obtain ⟨hst, hbody, hsig0, hsig, hkey0, hkey⟩ := hc
  have hs32 : c.signature.length < 2 ^ 32 := hsig ▸ hD.sig_lt _
  have hsne : c.signature ≠ [] := by
    intro h; rw [h] at hsig; exact hsig0 hsig
  have hkne : c.public_key ≠ [] := by
    intro h; rw [h] at hkey; exact hkey0 hkey
  unfold Certificate.encode
  rw [Save_memFile D c hst hbody hsne hs32 hkne]

/-- The length of the encoding of a valid certificate. -/
theorem encode_length (D : Decls) (hD : D.Sane) (c : Certificate) (hc : c.Valid D) :
    (c.encode D).length
      = AlignUp (c.signature.length + 4) 0x40 + D.sizeofBody + c.public_key.length := by
  rw [encode_eq D hD c hc]
  obtain ⟨hst, hbody, _, hsig, _, _⟩ := hc
  have hs32 : c.signature.length < 2 ^ 32 := hsig ▸ hD.sig_lt _
  have ha := alignUp_eq (c.signature.length + 4) (by omega)
  simp [hst, hbody]; omega

/-- The four members of a valid certificate are the four ranges of its encoding that
`Certificate::Load` reads. -/
theorem encode_slices (D : Decls) (hD : D.Sane) (c : Certificate) (hc : c.Valid D) :
    slice (c.encode D) 0 4 = c.signature_type ∧
      slice (c.encode D) 4 c.signature.length = c.signature ∧
      slice (c.encode D) (AlignUp (c.signature.length + 4) 0x40) D.sizeofBody = c.body ∧
      slice (c.encode D) (AlignUp (c.signature.length + 4) 0x40 + D.sizeofBody)
        c.public_key.length = c.public_key := by
  rw [encode_eq D hD c hc]
  obtain ⟨hst, hbody, _, hsig, _, _⟩ := hc
  have hs32 : c.signature.length < 2 ^ 32 := hsig ▸ hD.sig_lt _
  have ha := alignUp_eq (c.signature.length + 4) (by omega)
  refine ⟨?_, ?_, ?_, ?_⟩
  · have := slice_mid [] c.signature_type
      (c.signature
        ++ List.replicate (AlignUp (c.signature.length + 4) 0x40 - (c.signature.length + 4)) 0
        ++ c.body ++ c.public_key) 0 4 rfl hst.symm
    simpa using this
  · have := slice_mid c.signature_type c.signature
      (List.replicate (AlignUp (c.signature.length + 4) 0x40 - (c.signature.length + 4)) 0
        ++ c.body ++ c.public_key) 4 c.signature.length hst.symm rfl
    simpa using this
  · exact slice_mid _ c.body c.public_key _ _ (by simp [hst]; omega) hbody.symm
  · have := slice_mid (c.signature_type ++ c.signature
        ++ List.replicate (AlignUp (c.signature.length + 4) 0x40 - (c.signature.length + 4)) 0
        ++ c.body) c.public_key [] (AlignUp (c.signature.length + 4) 0x40 + D.sizeofBody)
      c.public_key.length (by simp [hst, hbody]; omega) rfl
    simpa using this

/-- C17.  Alignment invariant: for a signature size `s`, `body_start = AlignUp(s + 4, 0x40)` is a
multiple of 64, at least `s + 4`, less than `s + 4 + 64`, and the smallest such multiple.
`Certificate::Load` reads the body at `offset + body_start` for every offset at which it
succeeds, and `Certificate::Save` puts the body `body_start` bytes after the start of the
record. -/
theorem C17_alignment (s : Nat) (hs : s + 4 + 64 ≤ 2 ^ 64) :
    AlignUp (s + 4) 0x40 % 64 = 0 ∧ s + 4 ≤ AlignUp (s + 4) 0x40 ∧
      AlignUp (s + 4) 0x40 < s + 4 + 64 ∧
      (∀ m, m % 64 = 0 → s + 4 ≤ m → AlignUp (s + 4) 0x40 ≤ m) ∧
      (∀ (D : Decls) (self : Certificate) (fd : List u8) (offset n : Nat),
        D.Sane → fd.length < 2 ^ 64 → offset < 2 ^ 64 →
        D.GetSignatureSize (D.signature_type_value (slice fd offset 4)) = s →
        (Certificate.Load D self fd offset).ret = some n → n ≠ 0 →
        (Certificate.Load D self fd offset).self.body
          = slice fd (offset + AlignUp (s + 4) 0x40) D.sizeofBody) ∧
      (∀ (D : Decls) (c : Certificate), D.Sane → c.Valid D → c.signature.length = s →
        slice (c.encode D) (AlignUp (s + 4) 0x40) D.sizeofBody = c.body) := by
  have ha : AlignUp (s + 4) 0x40 = (s + 4) + (64 - (s + 4) % 64) % 64 := by
    unfold AlignUp SIZE_T; omega
  refine ⟨by omega, by omega, by omega, ?_, ?_, ?_⟩
  · intro m hm hle
    omega
  · intro D self fd offset n hD hlen hoff hsig hret hn
    obtain ⟨_, _, _, _, hself⟩ := Load_success D hD self fd offset n hlen hoff s _ _ _
      hsig.symm rfl rfl rfl hret hn
    rw [hself]
  · intro D c hD hc hlen
    rw [← hlen]
    exact (encode_slices D hD c hc).2.2.1

/-- C17, at the signature size 0x3C. -/
theorem C17_alignment_witness : AlignUp (0x3C + 4) 0x40 % 64 = 0 :=
  (C17_alignment 0x3C (by norm_num)).1

/-- C18.  Encode failure is surfaced: run on a sink that records the calls made to it,
`Certificate::Save` behaves as on the sink itself, the calls it makes are an initial part of
the five steps (signature type, signature, seek, body, public key) in this order; it returns
true exactly when all five calls were made and each succeeded in full, and when it returns
false the last call it made is the first one that did not succeed in full. -/
theorem C18_save_failure_surfaced {σ : Type} (D : Decls) (F : IOFile σ) (c : Certificate)
    (file : σ) (r : Bool × σ × List SinkCall)
    (hst : c.signature_type.length = 4) (hbody : c.body.length = D.sizeofBody)
    (hr : r = Certificate.Save D (logging F) c (file, [])) :
    (r.1, r.2.1) = Certificate.Save D F c file ∧
      r.2.2.map SinkCall.op = c.saveSteps.take r.2.2.length ∧
      (r.1 = true ↔ r.2.2.length = 5 ∧ ∀ e ∈ r.2.2, e.full = true) ∧
      (r.1 = false → ∃ init e, r.2.2 = init ++ [e] ∧ e.full = false ∧
        ∀ x ∈ init, x.full = true) := by
  subst hr
  simp only [Certificate.Save, logging, Certificate.saveSteps, hst, hbody]
  generalize hpad : (AlignUp ((c.signature.length + 4) % SIZE_T) 0x40 + 2 * SIZE_T
    - c.signature.length - 4) % SIZE_T = pad
  by_cases c1 : (F.WriteBytes file c.signature_type).1 = 4
  · by_cases c2 : (F.WriteBytes (F.WriteBytes file c.signature_type).2 c.signature).1
        = c.signature.length
    · by_cases c3 : (F.Seek (F.WriteBytes (F.WriteBytes file c.signature_type).2
          c.signature).2 pad).1 = true
      · by_cases c4 : (F.WriteBytes (F.Seek (F.WriteBytes (F.WriteBytes file
            c.signature_type).2 c.signature).2 pad).2 c.body).1 = D.sizeofBody
        · by_cases c5 : (F.WriteBytes (F.WriteBytes (F.Seek (F.WriteBytes (F.WriteBytes file
              c.signature_type).2 c.signature).2 pad).2 c.body).2 c.public_key).1
              = c.public_key.length
          · simp [c1, c2, c3, c4, c5, hst, hbody]
          · simp [c1, c2, c3, c4, c5, hst, hbody]
            exact ⟨[_, _, _, _], _, rfl, rfl, by simp⟩
        · simp [c1, c2, c3, c4, hst, hbody]
          exact ⟨[_, _, _], _, rfl, rfl, by simp⟩
      · simp [c1, c2, c3]
        exact ⟨[_, _], _, rfl, rfl, by simp⟩
    · simp [c1, c2, hst]
      exact ⟨[_], _, rfl, rfl, by simp⟩
  · simp [c1, hst]
    exact ⟨[], _, rfl, rfl, by simp⟩

/-- C18, on an in-memory file of capacity 100: the write of the body, which would end at byte
200, fails, and the public key is not written. -/
theorem C18_save_failure_surfaced_witness :
    (Certificate.Save (ctr []) (logging (limitedFile 100)) (sampleCert [65] 7)
      ({ contents := [], pos := 0 }, [])).2.2.map SinkCall.op
      = (sampleCert [65] 7).saveSteps.take
        (Certificate.Save (ctr []) (logging (limitedFile 100)) (sampleCert [65] 7)
          ({ contents := [], pos := 0 }, [])).2.2.length :=
  (C18_save_failure_surfaced (ctr []) (limitedFile 100) (sampleCert [65] 7)
    { contents := [], pos := 0 }
    (Certificate.Save (ctr []) (logging (limitedFile 100)) (sampleCert [65] 7)
      ({ contents := [], pos := 0 }, []))
    (by decide!) (by decide!) rfl).2.1

/-! ## Loading a database made of encoded certificates -/

/-- The call of `Certificate::Load` at the start of the encoding of a valid certificate, inside
any buffer, returns the length of the encoding and yields the certificate. -/
theorem Load_at_record (D : Decls) (hD : D.Sane) (self c : Certificate) (pre post : List u8)
    (hc : c.Valid D) (hlen : (pre ++ c.encode D ++ post).length < 2 ^ 64) :
    (Certificate.Load D self (pre ++ c.encode D ++ post) pre.length).ret
        = some (c.encode D).length ∧
      (Certificate.Load D self (pre ++ c.encode D ++ post) pre.length).self = c := by
  have henc := encode_length D hD c hc
  obtain ⟨h1, h2, h3, h4⟩ := encode_slices D hD c hc
  obtain ⟨hst, hbody, hsig0, hsig, hkey0, hkey⟩ := hc
  have hs32 : c.signature.length < 2 ^ 32 := hsig ▸ hD.sig_lt _
  have ha := alignUp_eq (c.signature.length + 4) (by omega)
  have hflen : (pre ++ c.encode D ++ post).length
      = pre.length + (c.encode D).length + post.length := by
    simp only [List.length_append]
  have s1 : slice (pre ++ c.encode D ++ post) pre.length 4 = c.signature_type := by
    have := slice_shift pre (c.encode D) post 0 4 (by omega)
    rw [Nat.add_zero] at this
    rw [this, h1]
  have s2 : slice (pre ++ c.encode D ++ post) (pre.length + 4) c.signature.length
      = c.signature := by
    rw [slice_shift pre (c.encode D) post 4 _ (by omega), h2]
  have s3 : slice (pre ++ c.encode D ++ post)
      (pre.length + AlignUp (c.signature.length + 4) 0x40) D.sizeofBody = c.body := by
    rw [slice_shift pre (c.encode D) post _ _ (by omega), h3]
  have s4 : slice (pre ++ c.encode D ++ post)
      (pre.length + (AlignUp (c.signature.length + 4) 0x40 + D.sizeofBody))
      c.public_key.length = c.public_key := by
    rw [slice_shift pre (c.encode D) post _ _ (by omega), h4]
  rw [Load_inRange D hD self (pre ++ c.encode D ++ post) pre.length hlen (by omega)
    c.signature.length (AlignUp (c.signature.length + 4) 0x40)
    (AlignUp (c.signature.length + 4) 0x40 + D.sizeofBody) c.public_key.length
    (by rw [s1, hsig]) rfl rfl (by rw [s3, hkey])]
  have c1 : ¬ (pre ++ c.encode D ++ post).length - pre.length < 4 := by omega
  have c2 : ¬ (c.signature.length = 0 ∨ (pre ++ c.encode D ++ post).length - pre.length
      < AlignUp (c.signature.length + 4) 0x40 + D.sizeofBody) := by
    have : c.signature.length ≠ 0 := fun h => hsig0 (hsig.trans h)
    omega
  have c3 : ¬ c.public_key.length = 0 := fun h => hkey0 (hkey.trans h)
  have c4 : ¬ (pre ++ c.encode D ++ post).length - pre.length
      < AlignUp (c.signature.length + 4) 0x40 + D.sizeofBody + c.public_key.length := by omega
  rw [if_neg c1, if_neg c2, if_neg c3, if_neg c4]
  simp only [s1, s2, s3, s4, henc, and_self]

theorem payload_append (D : Decls) (a b : List Certificate) :
    payload D (a ++ b) = payload D a ++ payload D b := by
  induction a with
  | nil => rfl
  | cons c cs ih => simp [payload, ih]

namespace Certs

/-- The record loop on a payload of encoded valid certificates: started at the first byte of the
certificates `todo`, with the certificates `done` before it, it runs to completion and inserts
the entries of `todo` in order. -/
theorem loop_on_payload (D : Decls) (hD : D.Sane) (hdr : List u8) :
    ∀ (todo done : List Certificate) (fuel : Nat) (g : Registry) (calls : List Nat),
      (∀ c ∈ todo, c.Valid D) →
      (hdr ++ payload D (done ++ todo)).length < 2 ^ 64 →
      (payload D todo).length ≤ fuel →
      (loop D (hdr ++ payload D (done ++ todo)) (hdr ++ payload D (done ++ todo)).length fuel
          (hdr.length + (payload D done).length) g calls).exit = LoopExit.completed ∧
        (loop D (hdr ++ payload D (done ++ todo)) (hdr ++ payload D (done ++ todo)).length fuel
          (hdr.length + (payload D done).length) g calls).g_certs
          = emplaceAll g (todo.map (entry D)) := by
  intro todo
  induction todo with
  | nil =>
    intro done fuel g calls _ _ _
    have hpos : ¬ hdr.length + (payload D done).length
        < (hdr ++ payload D (done ++ [])).length := by simp
    cases fuel <;> simp [loop, hpos, emplaceAll]
  | cons c cs ih =>
    intro done fuel g calls hvalid hlen hfuel
    have hc := hvalid c (List.mem_cons_self _ _)
    have henc := encode_length D hD c hc
    have hs32 : c.signature.length < 2 ^ 32 := hc.2.2.2.1 ▸ hD.sig_lt _
    have ha := alignUp_eq (c.signature.length + 4) (by omega)
    have hencpos : 0 < (c.encode D).length := by omega
    have hdata : hdr ++ payload D (done ++ c :: cs)
        = (hdr ++ payload D done) ++ c.encode D ++ payload D cs := by
      rw [payload_append]; simp [payload]
    have hdata' : hdr ++ payload D (done ++ c :: cs)
        = hdr ++ payload D ((done ++ [c]) ++ cs) := by simp
    have hprelen : (hdr ++ payload D done).length = hdr.length + (payload D done).length := by
      simp
    have hL := Load_at_record D hD (Certificate.fresh D) c (hdr ++ payload D done)
      (payload D cs) hc (by rw [← hdata]; exact hlen)
    rw [← hdata, hprelen] at hL
    have htotal : (hdr ++ payload D (done ++ c :: cs)).length
        = hdr.length + (payload D done).length + (c.encode D).length
          + (payload D cs).length := by
      rw [hdata]; simp; omega
    have hpos : hdr.length + (payload D done).length
        < (hdr ++ payload D (done ++ c :: cs)).length := by omega
    have hfuel' : (c.encode D).length + (payload D cs).length ≤ fuel := by
      simpa [payload] using hfuel
    obtain ⟨fuel', rfl⟩ : ∃ f, fuel = f + 1 := ⟨fuel - 1, by omega⟩
    have hstep : (hdr.length + (payload D done).length + (c.encode D).length) % SIZE_T
        = hdr.length + (payload D (done ++ [c])).length := by
      rw [payload_append]
      simp only [payload, List.append_nil, List.length_append]
      unfold SIZE_T; omega
    have hz : ¬ (c.encode D).length = 0 := by omega
    have hih := ih (done ++ [c]) fuel'
      (emplace g (D.name c.body) c) (calls ++ [hdr.length + (payload D done).length])
      (fun x hx => hvalid x (List.mem_cons_of_mem _ hx)) (by rw [← hdata']; exact hlen)
      (by omega)
    rw [← hdata'] at hih
    simp only [loop, hpos, if_true, hL.1, hz, if_false, hL.2, hstep]
    exact hih

/-- With pairwise different keys, `emplace` of a list of entries appends them. -/
theorem emplaceAll_nodup (es : List (List u8 × Certificate)) :
    ∀ g : Registry, ((g ++ es).map (fun e => e.1)).Nodup → emplaceAll g es = g ++ es := by
  induction es with
  | nil => intro g _; simp [emplaceAll]
  | cons e es ih =>
    intro g hnd
    have hnot : ¬ (g.any (fun x => decide (x.1 = e.1)) = true) := by
      intro h
      obtain ⟨x, hx, hxe⟩ := List.any_eq_true.mp h
      simp only [decide_eq_true_eq] at hxe
      rw [List.map_append, List.nodup_append] at hnd
      exact hnd.2.2 (List.mem_map.mpr ⟨x, hx, hxe⟩) (by simp)
    have hstep : emplaceAll g (e :: es) = emplaceAll (g ++ [e]) es := by
      show emplaceAll (emplace g e.1 e.2) es = _
      unfold emplace
      rw [if_neg hnot]
    rw [hstep, ih (g ++ [e]) (by simpa using hnd)]
    simp

/-- In a registry with pairwise different keys, every entry is found under its key. -/
theorem lookup_of_mem (g : Registry) (hnd : (g.map (fun e => e.1)).Nodup)
    (e : List u8 × Certificate) (he : e ∈ g) : lookup g e.1 = some e.2 := by
  induction g with
  | nil => simp at he
  | cons x xs ih =>
    rw [List.map_cons, List.nodup_cons] at hnd
    rcases List.mem_cons.mp he with rfl | hmem
    · simp [lookup]
    · have hne : x.1 ≠ e.1 := by
        intro h
        exact hnd.1 (List.mem_map.mpr ⟨e, hmem, h.symm⟩)
      have := ih hnd.2 hmem
      unfold lookup at this ⊢
      rw [List.find?_cons]
      simp [hne, this]

/-- C14.  Loader functional correctness: for valid certificates with pairwise different names
among which every required name occurs, the data block made of a header with the magic `CERT`
and `size` equal to the length of the encodings, followed by the encodings, makes
`Certs::Load` return true and set the loaded flag; the registry then holds exactly the entries
of the certificates, `Get` returns each certificate under its name and fails for every other
name.  The list of certificates may be empty. -/
theorem C14_loader_correct (D : Decls) (hD : D.Sane) (s : State) (c : DataContainer)
    (certs : List Certificate) (hdr : List u8) (rest : List (List u8))
    (hvalid : ∀ x ∈ certs, x.Valid D)
    (hnodup : (certs.map (fun x => D.name x.body)).Nodup)
    (hreq : ∀ n ∈ D.CIACertNames, n ∈ certs.map (fun x => D.name x.body))
    (hhdr : hdr.length = D.sizeofHeader) (hmagic : D.header_magic hdr = D.magicCERT)
    (hsize : D.header_size hdr = (payload D certs).length)
    (hgood : c.IsGood = true)
    (hdata : c.GetIVFCLevel4Data = some ((hdr ++ payload D certs) :: rest)) :
    (Load D s c).ret = Ret.value true ∧
      IsLoaded (Load D s c).state = true ∧
      (Load D s c).state.g_certs = certs.map (entry D) ∧
      (∀ x ∈ certs, Get (Load D s c).state (D.name x.body) = some x) ∧
      (∀ name, (∀ x ∈ certs, D.name x.body ≠ name) → Get (Load D s c).state name = none) := by
  have hp32 : (payload D certs).length < 2 ^ 32 := hsize ▸ hD.size_lt hdr
  have hh32 := hD.header_lt
  have hlen : (hdr ++ payload D certs).length = D.sizeofHeader + (payload D certs).length := by
    simp [hhdr]
  have htry : TRY_MEMCPY D (hdr ++ payload D certs) = some hdr := by
    unfold TRY_MEMCPY
    rw [if_neg (by omega)]
    simp [slice, ← hhdr]
  have htot : (hdr ++ payload D certs).length
      = (D.header_size hdr + D.sizeofHeader) % SIZE_T := by
    rw [hsize, hlen]; unfold SIZE_T; omega
  have hloop := loop_on_payload D hD hdr certs [] (hdr ++ payload D certs).length [] []
    hvalid (by simp only [List.nil_append]; omega)
    (by simp only [List.length_append]; omega)
  simp only [List.nil_append, payload, List.length_nil, Nat.add_zero, hhdr] at hloop
  have hkeys : ((certs.map (entry D)).map (fun e => e.1)) = certs.map (fun c => D.name c.body) := by
    simp [entry]
  have hreg : emplaceAll [] (certs.map (entry D)) = certs.map (entry D) := by
    rw [emplaceAll_nodup _ [] (by simpa [hkeys] using hnodup)]
    simp
  rw [hreg] at hloop
  have hall : D.CIACertNames.all (fun cert => count (certs.map (entry D)) cert ≠ 0) = true := by
    rw [List.all_eq_true]
    intro n hn
    obtain ⟨c, hc, hcn⟩ := List.mem_map.mp (hreq n hn)
    have : lookup (certs.map (entry D)) (entry D c).1 = some (entry D c).2 :=
      lookup_of_mem _ (by simpa [hkeys] using hnodup) _ (List.mem_map.mpr ⟨c, hc, rfl⟩)
    have hne : count (certs.map (entry D)) n ≠ 0 := by
      rw [ne_eq, count_eq_zero_iff, ← hcn]
      show ¬ lookup (certs.map (entry D)) (entry D c).1 = none
      rw [this]; simp
    simpa using hne
  have hL := Load_checked D s c
    (hdr ++ payload D certs) hdr rest (hdr ++ payload D certs).length hgood hdata htry hmagic
    htot (Nat.le_refl _)
  rw [hloop.1] at hL
  simp only [] at hL
  rw [hloop.2, if_pos hall] at hL
  rw [hL]
  refine ⟨rfl, rfl, rfl, ?_, ?_⟩
  · intro c hc
    exact lookup_of_mem _ (by simpa [hkeys] using hnodup) (entry D c)
      (List.mem_map.mpr ⟨c, hc, rfl⟩)
  · intro name hname
    unfold Get
    rw [lookup_eq_none_iff]
    intro cert hmem
    obtain ⟨c, hc, hce⟩ := List.mem_map.mp hmem
    simp only [entry, Prod.mk.injEq] at hce
    exact hname c hc hce.1

/-- C14, at a database of two certificates `A` and `B` of which `A` is required, and at the
empty database with no required name. -/
theorem C14_loader_correct_witness :
    (Load (ctr [[65]]) State.init
      { IsGood := true,
        GetIVFCLevel4Data := some [sampleHeader 0x280
          ++ payload (ctr [[65]]) [sampleCert [65] 7, sampleCert [66] 8]] }).ret
      = Ret.value true ∧
    (Load (ctr []) State.init
      { IsGood := true,
        GetIVFCLevel4Data := some [sampleHeader 0 ++ payload (ctr []) []] }).ret
      = Ret.value true ∧
    (Load (ctr []) State.init
      { IsGood := true,
        GetIVFCLevel4Data := some [sampleHeader 0 ++ payload (ctr []) []] }).state
      = { g_certs := [], g_is_loaded := true } :=
  have h2 := C14_loader_correct (ctr [[65]]) (ctr_sane [[65]]) State.init
    { IsGood := true,
      GetIVFCLevel4Data := some [sampleHeader 0x280
        ++ payload (ctr [[65]]) [sampleCert [65] 7, sampleCert [66] 8]] }
    [sampleCert [65] 7, sampleCert [66] 8] (sampleHeader 0x280) []
    (by decide!) (by decide!) (by decide!) (by decide!) (by decide!) (by decide!) rfl rfl
  have h0 := C14_loader_correct (ctr []) (ctr_sane []) State.init
    { IsGood := true, GetIVFCLevel4Data := some [sampleHeader 0 ++ payload (ctr []) []] }
    [] (sampleHeader 0) []
    (by decide!) (by decide!) (by decide!) (by decide!) (by decide!) (by decide!) rfl rfl
  ⟨h2.1, h0.1, by
    have hg := h0.2.2.1
    have hf := h0.2.1
    cases hst : (Load (ctr []) State.init
      { IsGood := true,
        GetIVFCLevel4Data := some [sampleHeader 0 ++ payload (ctr []) []] }).state with
    | mk g f =>
      rw [hst] at hg hf
      simp only [IsLoaded] at hf
      simp only [List.map_nil] at hg
      rw [hg, hf]⟩

end Certs

end Core
